import Mathlib

/-!
Verification of the git-stack stacked-change reconciliation engine
(src/git/helpers/git_stack/src/git_stack/{change_id,stack,hosting_client}.py).

Python strings are modelled as lists of characters (ASCII fragment: the
character classes of the regular expressions and the whitespace notion are
the ASCII ones, which is what all identifiers, branch names and command
output in this tool consist of).  File-system access, subprocess calls and
the remote hosting service are modelled as explicit oracles passed to the
functions that use them.
-/

set_option maxRecDepth 8000

namespace GitStack

/-- Python strings as lists of characters. -/
abbrev PyStr := List Char

/-- Coercion from Lean string literals to the model of Python strings. -/
def lit (s : String) : PyStr := s.data

/-- ASCII decimal digit, the class `[0-9]` of the patterns. -/
def isDigitB (c : Char) : Bool := 48 ≤ c.toNat && c.toNat ≤ 57

/-- The class `[a-f0-9]` under `re.IGNORECASE`, as used for the uuid part of
the new Change-Id pattern. -/
def isHexCI (c : Char) : Bool :=
  isDigitB c || (97 ≤ c.toNat && c.toNat ≤ 102) || (65 ≤ c.toNat && c.toNat ≤ 70)

/-- The class `[a-z0-9-]` under `re.IGNORECASE`, used for the stack-name part
of the new pattern and for the whole captured group of the legacy pattern. -/
def isStackClassCI (c : Char) : Bool :=
  isDigitB c || (97 ≤ c.toNat && c.toNat ≤ 122) ||
    (65 ≤ c.toNat && c.toNat ≤ 90) || c.toNat = 45

/-- ASCII whitespace, the class matched by `\s` and stripped by `str.strip`. -/
def pySpace (c : Char) : Bool := c.toNat = 32 || (9 ≤ c.toNat && c.toNat ≤ 13)

/-- Lowercase letter, from the stack-name validation pattern `[a-z0-9]`. -/
def isStackNameChar (c : Char) : Bool :=
  (97 ≤ c.toNat && c.toNat ≤ 122) || isDigitB c

/-- Interior character of the validation pattern, `[a-z0-9-]`. -/
def isStackNameInner (c : Char) : Bool := isStackNameChar c || c.toNat = 45

/-- Membership of a character in a string, Python `c in s` for a
single-character pattern. -/
def pyContainsChar (s : PyStr) (c : Char) : Bool := s.any (fun d => d = c)

/-- Python `str.startswith`. -/
def pyStartsWith : PyStr → PyStr → Bool
  | _, [] => true
  | [], _ :: _ => false
  | c :: cs, d :: ds => c = d && pyStartsWith cs ds

/-- Python `str.endswith`. -/
def pyEndsWith (s suf : PyStr) : Bool := pyStartsWith s.reverse suf.reverse

/-- Python `str.lower` on the ASCII fragment. -/
def pyLower (s : PyStr) : PyStr := s.map Char.toLower

/-- Python `str.lstrip()` (default whitespace). -/
def pyLStrip (s : PyStr) : PyStr := s.dropWhile pySpace

/-- Python `str.rstrip()` (default whitespace). -/
def pyRStrip (s : PyStr) : PyStr := ((s.reverse).dropWhile pySpace).reverse

/-- Python `str.strip()` (default whitespace). -/
def pyStrip (s : PyStr) : PyStr := pyRStrip (pyLStrip s)

/-- Python substring test `sub in s`. -/
def containsSub : PyStr → PyStr → Bool
  | s, sub =>
    pyStartsWith s sub ||
      (match s with
       | [] => false
       | _ :: t => containsSub t sub)

/-- Python `str.split(sep)` for a one-character separator: splits at every
occurrence and keeps empty pieces. -/
def pySplitChar : PyStr → Char → List PyStr
  | [], _ => [[]]
  | c :: rest, sep =>
    if c = sep then [] :: pySplitChar rest sep
    else
      match pySplitChar rest sep with
      | [] => [[c]]
      | p :: ps => (c :: p) :: ps

/-- Fuel-driven core of Python `str.replace(old, new)`: replaces every
non-overlapping occurrence, scanning left to right.  The fuel only serves to
make the recursion structural; `s.length` steps always suffice. -/
def pyReplaceFuel (old new : PyStr) : Nat → PyStr → PyStr
  | 0, s => s
  | _ + 1, [] => []
  | fuel + 1, c :: rest =>
    if old ≠ [] && pyStartsWith (c :: rest) old then
      new ++ pyReplaceFuel old new fuel ((c :: rest).drop old.length)
    else
      c :: pyReplaceFuel old new fuel rest

/-- Python `str.replace(old, new)`. -/
def pyReplace (s old new : PyStr) : PyStr := pyReplaceFuel old new s.length s

/-- Decimal digit character for a value below ten. -/
def digitChar : Nat → Char
  | 0 => '0'
  | 1 => '1'
  | 2 => '2'
  | 3 => '3'
  | 4 => '4'
  | 5 => '5'
  | 6 => '6'
  | 7 => '7'
  | 8 => '8'
  | _ => '9'

/-- Fuel-driven decimal rendering of a natural number (Python f-string
interpolation of a non-negative `int`). -/
def natToDigitsAux : Nat → Nat → PyStr
  | 0, _ => []
  | fuel + 1, n =>
    if n < 10 then [digitChar n]
    else natToDigitsAux fuel (n / 10) ++ [digitChar (n % 10)]

/-- Decimal rendering of a natural number. -/
def natToDigits (n : Nat) : PyStr := natToDigitsAux (n + 1) n

/-- Python `int()` on a string of decimal digits. -/
def digitsToNat (s : PyStr) : Nat :=
  s.foldl (fun acc c => acc * 10 + (c.toNat - 48)) 0

/-- Python `str.isdigit()` on the ASCII fragment: non-empty and all digits. -/
def pyIsDigitStr (s : PyStr) : Bool := !s.isEmpty && s.all isDigitB

/-! ### change_id.py : the identity codec -/

/-- The literal `Change-Id:` label of both patterns, lowered for the
case-insensitive comparison. -/
def tagLit : PyStr := lit "change-id:"

/-- Case-insensitive removal of a literal from the front of a string; returns
the remainder on success.  Models matching the `Change-Id:` literal of the
patterns under `re.IGNORECASE`. -/
def stripLitCI : PyStr → PyStr → Option PyStr
  | [], s => some s
  | _ :: _, [] => none
  | l :: ls, c :: cs => if c.toLower = l.toLower then stripLitCI ls cs else none

/-- Captured groups of the new-format pattern: uuid part, stack name,
position digits. -/
abbrev NewCaps := PyStr × PyStr × PyStr

/-- Attempt of `Change-Id:\s+([a-f0-9]+)@([a-z0-9-]+)@(\d+)` (IGNORECASE) at
the start of the given string.  Each quantified class is disjoint from the
character that follows it in the pattern, so the greedy maximal-munch scan
below is exactly the Python backtracking semantics for this pattern. -/
def matchNewAt (s : PyStr) : Option NewCaps :=
  match stripLitCI tagLit s with
  | none => none
  | some r =>
    let ws := r.takeWhile pySpace
    let r1 := r.dropWhile pySpace
    if ws.isEmpty then none
    else
      let hx := r1.takeWhile isHexCI
      let r2 := r1.dropWhile isHexCI
      if hx.isEmpty then none
      else
        match r2 with
        | [] => none
        | a :: r3 =>
          if a = '@' then
            let st := r3.takeWhile isStackClassCI
            let r4 := r3.dropWhile isStackClassCI
            if st.isEmpty then none
            else
              match r4 with
              | [] => none
              | b :: r5 =>
                if b = '@' then
                  let dg := r5.takeWhile isDigitB
                  if dg.isEmpty then none else some (hx, st, dg)
                else none
          else none

/-- Attempt of the legacy pattern `Change-Id:\s+([a-z0-9-]+)` (IGNORECASE) at
the start of the given string. -/
def matchOldAt (s : PyStr) : Option PyStr :=
  match stripLitCI tagLit s with
  | none => none
  | some r =>
    let ws := r.takeWhile pySpace
    let r1 := r.dropWhile pySpace
    if ws.isEmpty then none
    else
      let run := r1.takeWhile isStackClassCI
      if run.isEmpty then none else some run

/-- Leftmost match of the new-format pattern, Python `re.search`. -/
def searchNew : PyStr → Option NewCaps
  | [] => none
  | c :: t =>
    match matchNewAt (c :: t) with
    | some caps => some caps
    | none => searchNew t

/-- Leftmost match of the legacy pattern, Python `re.search`. -/
def searchOld : PyStr → Option PyStr
  | [] => none
  | c :: t =>
    match matchOldAt (c :: t) with
    | some run => some run
    | none => searchOld t

/-- The delimited identifier rebuilt from the three captured groups. -/
def capsToId (caps : NewCaps) : PyStr :=
  caps.1 ++ '@' :: caps.2.1 ++ '@' :: caps.2.2

/-- Model of `extract_change_id`: try the new format first, then fall back to
the legacy format; `None` on a missing or empty message. -/
def extract_change_id (msg : Option PyStr) : Option PyStr :=
  match msg with
  | none => none
  | some m =>
    if m.isEmpty then none
    else
      match searchNew m with
      | some caps => some (capsToId caps)
      | none => searchOld m

/-- Model of `extract_stack_name`. -/
def extract_stack_name (cid : Option PyStr) : Option PyStr :=
  match cid with
  | none => none
  | some s =>
    if s.isEmpty then none
    else if pyContainsChar s '@' then
      match pySplitChar s '@' with
      | [_, b, _] => some b
      | _ => none
    else
      let parts := pySplitChar s '-'
      if 3 ≤ parts.length then
        some (List.intercalate (lit "-") ((parts.drop 1).dropLast))
      else none

/-- Model of `extract_position`. -/
def extract_position (cid : Option PyStr) : Option Nat :=
  match cid with
  | none => none
  | some s =>
    if s.isEmpty then none
    else if pyContainsChar s '@' then
      match pySplitChar s '@' with
      | [_, _, d] => if pyIsDigitStr d then some (digitsToNat d) else none
      | _ => none
    else
      let parts := pySplitChar s '-'
      match parts.getLast? with
      | some last => if pyIsDigitStr last then some (digitsToNat last) else none
      | none => none

/-- Model of `generate_change_id`; the random uuid part (first eight
characters of `uuid.uuid4()`, always lowercase hex digits) is passed in as an
oracle value. -/
def generate_change_id (uuidPart stackName : PyStr) (position : Nat) : PyStr :=
  uuidPart ++ '@' :: stackName ++ '@' :: natToDigits position

/-- Core of the stack-name validation pattern
`^[a-z0-9][a-z0-9-]*[a-z0-9]$|^[a-z0-9]$`, matched against the whole
string. -/
def matchesStackCore : PyStr → Bool
  | [] => false
  | [c] => isStackNameChar c
  | c :: rest =>
    isStackNameChar c && (rest.dropLast).all isStackNameInner &&
      (match rest.getLast? with
       | some d => isStackNameChar d
       | none => false)

/-- Model of `validate_stack_name`.  The last disjunct mirrors the Python
`re` semantics of `$`, which also matches just before one trailing
newline. -/
def validate_stack_name (s : PyStr) : Bool :=
  if s.isEmpty then false
  else if pyContainsChar s '@' then false
  else matchesStackCore s || (s.getLast? = some '\n' && matchesStackCore s.dropLast)

/-- Model of `get_branch_name`; the resolved local identity
(`get_git_username()`) is passed in as a parameter. -/
def get_branch_name (userName cid : PyStr) : PyStr :=
  userName ++ lit "/stack-" ++ cid

/-! ### stack.py : pure helpers -/

/-- Model of `add_change_id_to_message`. -/
def add_change_id_to_message (message changeId : PyStr) : PyStr :=
  if (extract_change_id (some message)).isSome then message
  else
    let m1 :=
      if !message.isEmpty && !pyEndsWith message (lit "\n") then message ++ lit "\n"
      else message
    let m2 :=
      if !m1.isEmpty && !pyEndsWith m1 (lit "\n\n") then m1 ++ lit "\n"
      else m1
    m2 ++ lit "Change-Id: " ++ changeId

/-- Model of `truncate_mr_title`; the Python default for `max_length`
is 255. -/
def truncate_mr_title (title : PyStr) (maxLength : Nat) : PyStr :=
  if title.length ≤ maxLength then title
  else title.take (maxLength - 3) ++ lit "..."

/-- Review-request reference stored in the mapping file. -/
structure MrInfo where
  mr_iid : Nat
  mr_url : PyStr
  project_id : PyStr
deriving DecidableEq

/-- The Change-Id to MR mapping, a JSON object modelled as an
insertion-ordered association list with unique keys, exactly the Python
`dict` semantics used by the code. -/
abbrev Mapping := List (PyStr × MrInfo)

/-- Python `dict.get` / `in` lookup. -/
def dictGet : Mapping → PyStr → Option MrInfo
  | [], _ => none
  | (k, v) :: rest, key => if k = key then some v else dictGet rest key

/-- Python `dict` assignment: replace in place if present, append if new. -/
def dictInsert (m : Mapping) (key : PyStr) (v : MrInfo) : Mapping :=
  if (dictGet m key).isSome then
    m.map (fun p => if p.1 = key then (key, v) else p)
  else m ++ [(key, v)]

/-- Model of `load_mapping`: the file system is an oracle giving, per path,
`none` when `path.exists()` is false and the raw contents otherwise; the
JSON parser is an oracle returning `none` on `OSError`/`JSONDecodeError`.
Both failure shapes degrade to the empty mapping. -/
def load_mapping (readFile : PyStr → Option PyStr) (parseJson : PyStr → Option Mapping)
    (path : PyStr) : Mapping :=
  match readFile path with
  | none => []
  | some contents =>
    match parseJson contents with
    | some data => data
    | none => []

/-- Commit record produced by `_get_commits`: sha (modelled as a numeric
identifier), optional Change-Id, subject line and full message. -/
structure Commit where
  sha : Nat
  change_id : Option PyStr
  subject : PyStr
  message : PyStr
deriving DecidableEq

/-- Interpolation of a possibly missing Change-Id into an f-string, as in
`get_branch_name(commit["change_id"])` when the id is `None`. -/
def cidStr (cid : Option PyStr) : PyStr :=
  match cid with
  | some s => s
  | none => lit "None"

/-- Chain entry: a commit record extended with the computed source and
target branches. -/
structure ChainEntry where
  sha : Nat
  change_id : Option PyStr
  subject : PyStr
  message : PyStr
  source_branch : PyStr
  target_branch : PyStr
deriving DecidableEq

/-- Loop body of `build_mr_chain`: `prevTarget` is the target branch of the
commit about to be emitted (the stripped base branch for the first commit,
the source branch of the previous commit afterwards). -/
def buildMrChainAux (userName : PyStr) : PyStr → List Commit → List ChainEntry
  | _, [] => []
  | prevTarget, c :: rest =>
    { sha := c.sha
      change_id := c.change_id
      subject := c.subject
      message := c.message
      source_branch := get_branch_name userName (cidStr c.change_id)
      target_branch := prevTarget } ::
      buildMrChainAux userName (get_branch_name userName (cidStr c.change_id)) rest

/-- Model of `build_mr_chain`. -/
def build_mr_chain (userName : PyStr) (commits : List Commit) (baseBranch : PyStr) :
    List ChainEntry :=
  buildMrChainAux userName (pyReplace baseBranch (lit "origin/") []) commits

/-! ### stack.py : the MR create-or-update phase -/

/-- Remote call issued by `_create_or_update_mrs.process_mr`. -/
inductive MrCall where
  | update (mr_iid : Nat) (title : PyStr) (target_branch : PyStr)
  | create (source_branch target_branch title description : PyStr)
deriving DecidableEq

/-- Description of a new MR: the commit message with every `Change-Id:` line
dropped, then right-stripped. -/
def mrDescription (message : PyStr) : PyStr :=
  pyRStrip (List.intercalate (lit "\n")
    ((pySplitChar message '\n').filter
      (fun line => !pyStartsWith (pyStrip line) (lit "Change-Id:"))))

/-- One worker of the parallel create-or-update phase.  It reads the mapping
as it was when the phase started and reports the remote call it made
together with, for a create, the change identifier to be recorded.  The
result of a remote create (`mr_iid`, `mr_url`, together with the project id
from `_get_project_id`) is given by the `createInfo` oracle. -/
def processMr (createInfo : PyStr → MrInfo) (mapping : Mapping) (e : ChainEntry) :
    MrCall × Option PyStr :=
  match e.change_id with
  | none =>
    (.create e.source_branch e.target_branch (truncate_mr_title e.subject 255)
      (mrDescription e.message), none)
  | some cid =>
    match dictGet mapping cid with
    | some existing =>
      (.update existing.mr_iid (truncate_mr_title e.subject 255) e.target_branch, none)
    | none =>
      (.create e.source_branch e.target_branch (truncate_mr_title e.subject 255)
        (mrDescription e.message), some cid)

/-- Mapping update after the parallel phase: one entry per successful
create, guarded by the Python truthiness test
`action == "create" and change_id`. -/
def recordCreates (createInfo : PyStr → MrInfo) (results : List (MrCall × Option PyStr))
    (mapping : Mapping) : Mapping :=
  results.foldl
    (fun acc r =>
      match r.2 with
      | some cid => if cid.isEmpty then acc else dictInsert acc cid (createInfo cid)
      | none => acc)
    mapping

/-- Model of `_create_or_update_mrs`: every chain entry is processed against
the phase-start mapping; afterwards the mapping is extended with one entry
per successful create. -/
def create_or_update_mrs (createInfo : PyStr → MrInfo) (mapping : Mapping)
    (chain : List ChainEntry) : List (MrCall × Option PyStr) × Mapping :=
  let results := chain.map (processMr createInfo mapping)
  (results, recordCreates createInfo results mapping)

/-! ### hosting_client.py : the glab command runner -/

/-- Outcome of one `subprocess.run(["glab", ...])` invocation. -/
structure CmdResult where
  returncode : Int
  stdout : PyStr
  stderr : PyStr
deriving DecidableEq

/-- Transient-failure test of `_run_glab_command`: any of the markers occurs
in the lowercased stderr plus stdout. -/
def isRetryable (r : CmdResult) : Bool :=
  let errorOutput := pyLower r.stderr ++ pyLower r.stdout
  containsSub errorOutput (lit "timeout") || containsSub errorOutput (lit "connection") ||
    containsSub errorOutput (lit "rate limit") || containsSub errorOutput (lit "503") ||
    containsSub errorOutput (lit "502") || containsSub errorOutput (lit "504")

/-- Observable outcome of `_run_glab_command` (non-dry-run): the returned
string or the raised `CalledProcessError`. -/
inductive GlabOutcome where
  | returned (out : PyStr)
  | raised (r : CmdResult)
deriving DecidableEq

/-- Trace of one `_run_glab_command` call: how many subprocess invocations
were made, which backoff delays (in seconds) were slept, and the outcome. -/
structure GlabRun where
  invocations : Nat
  sleeps : List Nat
  outcome : GlabOutcome
deriving DecidableEq

/-- The retry loop of `_run_glab_command`.  `fuel` is the number of loop
iterations left (`retries - attempt`), so the Python guard
`attempt < retries - 1` is `fuel ≠ 1` at the head of an iteration. -/
def runGlabAux (outcomes : Nat → CmdResult) (check : Bool) : Nat → Nat → GlabRun
  | 0, _ => ⟨0, [], .returned []⟩
  | fuel + 1, attempt =>
    let r := outcomes attempt
    if r.returncode = 0 then ⟨1, [], .returned (pyStrip r.stdout)⟩
    else if isRetryable r && decide (fuel ≠ 0) then
      let rest := runGlabAux outcomes check fuel (attempt + 1)
      ⟨rest.invocations + 1, 2 ^ attempt :: rest.sleeps, rest.outcome⟩
    else if check then ⟨1, [], .raised r⟩
    else ⟨1, [], .returned []⟩

/-- Model of `_run_glab_command` with the subprocess modelled as an oracle
from attempt index to result.  The Python default retry budget is 3. -/
def run_glab_command (outcomes : Nat → CmdResult) (check : Bool) (retries : Nat) : GlabRun :=
  runGlabAux outcomes check retries 0

/-! ### hosting_client.py and stack.py : MR dependencies -/

/-- Outcome of one glab dependency call inside
`GitLabClient.set_mr_dependencies`. -/
inductive DepCmd where
  | ok
  | fail (r : CmdResult)

/-- Result of `GitLabClient.set_mr_dependencies`: normal return, the
distinguished `ValueError` for a missing capability, or the re-raised
`CalledProcessError`. -/
inductive DepClientResult where
  | ok
  | featureUnavailable
  | raised (r : CmdResult)
deriving DecidableEq

/-- Model of `GitLabClient.set_mr_dependencies`: one POST per blocking MR;
a `CalledProcessError` whose stderr or stdout mentions 404 becomes the
distinguished `ValueError`, every other error is re-raised. -/
def set_mr_dependencies_client (runCmd : Nat → DepCmd) : List Nat → Nat → DepClientResult
  | [], _ => .ok
  | _ :: rest, j =>
    match runCmd j with
    | .ok => set_mr_dependencies_client runCmd rest (j + 1)
    | .fail r =>
      if containsSub r.stderr (lit "404") || containsSub r.stdout (lit "404") then
        .featureUnavailable
      else .raised r

/-- Result of one `set_dependency` worker of `_set_mr_dependencies`. -/
inductive DepStatus where
  | success (mr prev : Nat)
  | notAvailable
  | failed (mr prev : Nat) (r : CmdResult)
deriving DecidableEq

/-- A dependency call issued to the hosting client. -/
structure DepCall where
  mr_iid : Nat
  blocking : List Nat
deriving DecidableEq

/-- One `set_dependency` worker: entry 0 and entries without both mapping
entries do nothing; otherwise exactly one client call is made.  Returns the
status reported to the result loop and the list of issued calls. -/
def depEntryResult (client : Nat → List Nat → DepClientResult) (mapping : Mapping)
    (chain : List ChainEntry) (i : Nat) (c : ChainEntry) :
    Option DepStatus × List DepCall :=
  if i = 0 then (none, [])
  else
    match c.change_id with
    | none => (none, [])
    | some cid =>
      match dictGet mapping cid with
      | none => (none, [])
      | some info =>
        match chain.get? (i - 1) with
        | none => (none, [])
        | some prevC =>
          match prevC.change_id with
          | none => (none, [])
          | some prevCid =>
            match dictGet mapping prevCid with
            | none => (none, [])
            | some prevInfo =>
              let call : DepCall := ⟨info.mr_iid, [prevInfo.mr_iid]⟩
              match client info.mr_iid [prevInfo.mr_iid] with
              | .ok => (some (.success info.mr_iid prevInfo.mr_iid), [call])
              | .featureUnavailable => (some .notAvailable, [call])
              | .raised r => (some (.failed info.mr_iid prevInfo.mr_iid r), [call])

/-- The result-reporting loop of `_set_mr_dependencies`: counts warnings; on
the first feature-unavailable status it warns once and breaks. -/
def reportDepResults : List (Option DepStatus) → Nat
  | [] => 0
  | none :: rest => reportDepResults rest
  | some (.success _ _) :: rest => reportDepResults rest
  | some .notAvailable :: _ => 1
  | some (.failed _ _ _) :: rest => reportDepResults rest

/-- Model of `_set_mr_dependencies` (non-dry-run): all workers are submitted
to the executor before any result is consumed, so every eligible entry
issues its call; the reporting loop then runs over the results.  Returns the
issued calls and the number of feature-unavailable warnings printed. -/
def set_mr_dependencies_engine (client : Nat → List Nat → DepClientResult)
    (mapping : Mapping) (chain : List ChainEntry) : List DepCall × Nat :=
  let results := chain.enum.map (fun p => depEntryResult client mapping chain p.1 p.2)
  ((results.map (fun r => r.2)).flatten, reportDepResults (results.map (fun r => r.1)))

/-- The dependency call an entry demands: present exactly for a non-first
entry whose own and previous change identifiers are both mapped. -/
def eligibleDepCall (mapping : Mapping) (chain : List ChainEntry) (i : Nat)
    (c : ChainEntry) : Option DepCall :=
  if i = 0 then none
  else
    match c.change_id with
    | none => none
    | some cid =>
      match dictGet mapping cid with
      | none => none
      | some info =>
        match chain.get? (i - 1) with
        | none => none
        | some prevC =>
          match prevC.change_id with
          | none => none
          | some prevCid =>
            match dictGet mapping prevCid with
            | none => none
            | some prevInfo => some ⟨info.mr_iid, [prevInfo.mr_iid]⟩

/-- The dependency calls an eligible chain demands: one per eligible entry.
Used to state that the engine issues exactly these calls whatever the
client answers. -/
def eligibleDepCalls (mapping : Mapping) (chain : List ChainEntry) : List DepCall :=
  chain.enum.filterMap (fun p => eligibleDepCall mapping chain p.1 p.2)

/-! ### stack.py : the history rewriter

The local repository is modelled by the refs the rewriter touches: the HEAD
sha, the checked-out branch (none when detached), the branch pointers, the
backup ref, a cherry-pick-in-progress flag, the cleanliness of the working
tree and a counter supplying the shas of newly written commits.  Each git
command used by `_add_change_ids_to_commits` becomes a state transition. -/

/-- The refs and working-tree state the history rewriter interacts with. -/
structure GitRepo where
  head : Nat
  currentBranch : Option PyStr
  branches : List (PyStr × Nat)
  backupRef : Option Nat
  cherryPickInProgress : Bool
  treeClean : Bool
  nextSha : Nat
deriving DecidableEq

/-- Branch-pointer lookup. -/
def lookupBranch : List (PyStr × Nat) → PyStr → Option Nat
  | [], _ => none
  | (b, sha) :: rest, name => if b = name then some sha else lookupBranch rest name

/-- Command `git update-ref refs/git-stack/backup HEAD`
(`_create_backup_ref`). -/
def gitUpdateBackupRef (r : GitRepo) : GitRepo := { r with backupRef := some r.head }

/-- Command `git update-ref -d refs/git-stack/backup`
(`_cleanup_backup_ref`). -/
def gitDeleteBackupRef (r : GitRepo) : GitRepo := { r with backupRef := none }

/-- Command `git checkout <sha>`: moves HEAD and detaches it. -/
def gitCheckoutSha (sha : Nat) (r : GitRepo) : GitRepo :=
  { r with head := sha, currentBranch := none }

/-- Command `git checkout <branch>`; with `check=False` a missing branch
leaves the state unchanged. -/
def gitCheckoutBranch (name : PyStr) (r : GitRepo) : GitRepo :=
  match lookupBranch r.branches name with
  | some sha => { r with head := sha, currentBranch := some name }
  | none => r

/-- Command `git reset --hard <sha>`: moves HEAD and, when a branch is
checked out, that branch pointer. -/
def gitResetHard (sha : Nat) (r : GitRepo) : GitRepo :=
  match r.currentBranch with
  | some b =>
    { r with head := sha,
             branches := r.branches.map (fun p => if p.1 = b then (b, sha) else p) }
  | none => { r with head := sha }

/-- Successful `git cherry-pick <sha>`: writes a new commit at HEAD. -/
def gitCherryPickOk (r : GitRepo) : GitRepo :=
  { r with head := r.nextSha, nextSha := r.nextSha + 1 }

/-- Failing `git cherry-pick <sha>`: leaves a cherry-pick in progress. -/
def gitCherryPickFail (r : GitRepo) : GitRepo := { r with cherryPickInProgress := true }

/-- Command `git cherry-pick --abort`. -/
def gitCherryPickAbort (r : GitRepo) : GitRepo := { r with cherryPickInProgress := false }

/-- Command `git commit --amend -m <msg>`: rewrites the commit at HEAD. -/
def gitAmend (r : GitRepo) : GitRepo :=
  { r with head := r.nextSha, nextSha := r.nextSha + 1 }

/-- Model of `_restore_from_backup`: resolve the backup ref (`check=False`)
and hard-reset to it when it exists. -/
def restoreFromBackup (r : GitRepo) : GitRepo :=
  match r.backupRef with
  | some sha => gitResetHard sha r
  | none => r

/-- Result of the history rewriter: the updated commit list, or one of the
two distinguished errors. -/
inductive RewriteResult where
  | ok (commits : List Commit)
  | cherryPickFailed
  | dirtyTree
deriving DecidableEq

/-- The cherry-pick loop of `_add_change_ids_to_commits`.  `uuid` supplies
the random part of each generated identifier, `pickOk` says whether the
cherry-pick of the commit at a given loop index succeeds, `i` is the loop
index, `position` the running position counter and `acc` the processed
commits in reverse.  On a failed cherry-pick the in-progress pick is
aborted, the backup is restored and the distinguished error returned. -/
def pickLoop (stackName : PyStr) (uuid : Nat → PyStr) (pickOk : Nat → Bool) :
    List Commit → GitRepo → Nat → Nat → List Commit → GitRepo × RewriteResult
  | [], r, _, _, acc => (r, .ok acc.reverse)
  | c :: rest, r, i, position, acc =>
    match c.change_id with
    | none =>
      let newId := generate_change_id (uuid i) stackName position
      if pickOk i then
        let r1 := gitCherryPickOk r
        let newMsg := add_change_id_to_message c.message newId
        let r2 := gitAmend r1
        let c2 : Commit :=
          { sha := r2.head, change_id := some newId, subject := c.subject,
            message := newMsg }
        pickLoop stackName uuid pickOk rest r2 (i + 1) (position + 1) (c2 :: acc)
      else
        (restoreFromBackup (gitCherryPickAbort (gitCherryPickFail r)), .cherryPickFailed)
    | some cid =>
      if pickOk i then
        let r1 := gitCherryPickOk r
        let c2 : Commit := { c with sha := r1.head }
        let position2 :=
          match extract_position (some cid) with
          | some q => if q ≠ 0 then q else position
          | none => position
        pickLoop stackName uuid pickOk rest r1 (i + 1) (position2 + 1) (c2 :: acc)
      else
        (restoreFromBackup (gitCherryPickAbort (gitCherryPickFail r)), .cherryPickFailed)

/-- Sha of the parent of the oldest commit, `git rev-parse <sha>~1` with the
parent map supplied as an oracle. -/
def oldestParent (parentSha : Nat → Nat) : List Commit → Nat
  | [] => parentSha 0
  | c :: _ => parentSha c.sha

/-- Return to the original branch or sha after a successful rewrite:
`git checkout <branch>` and `git reset --hard <last>` when a branch was
checked out, `git checkout <last>` when HEAD was detached. -/
def finishRewrite (originalRef : Option PyStr) (r : GitRepo) (cs : List Commit) :
    GitRepo :=
  let lastSha :=
    match cs.getLast? with
    | some c => c.sha
    | none => r.head
  match originalRef with
  | some b => gitResetHard lastSha (gitCheckoutBranch b r)
  | none => gitCheckoutSha lastSha r

/-- Model of `_add_change_ids_to_commits` (non-dry-run).  The resolved stack
name (`_determine_stack_name`) and the parent of the oldest commit
(`git rev-parse <sha>~1`) are supplied as parameters.  Mirrors the source:
early return when no commit lacks an identifier, the clean-tree
precondition, backup creation, detaching at the base, the cherry-pick loop,
the return to the original branch or sha, and backup deletion only on full
success. -/
def add_change_ids_to_commits (repo : GitRepo) (commits : List Commit)
    (stackName : PyStr) (uuid : Nat → PyStr) (pickOk : Nat → Bool)
    (parentSha : Nat → Nat) : GitRepo × RewriteResult :=
  if commits.all (fun c => c.change_id.isSome) then (repo, .ok commits)
  else if !repo.treeClean then (repo, .dirtyTree)
  else
    let repo2 := gitCheckoutSha (oldestParent parentSha commits) (gitUpdateBackupRef repo)
    match pickLoop stackName uuid pickOk commits repo2 0 1 [] with
    | (r, .ok cs) => (gitDeleteBackupRef (finishRewrite repo.currentBranch r cs), .ok cs)
    | (r, res) => (r, res)

/-! ### spec-side definitions

These two definitions follow the words of the specification rather than the
source; they exist only to be compared with the behaviour of the code. -/

/-- The specification asks for the remote-tracking prefix of the base branch
to be stripped: remove one leading occurrence of the prefix. -/
def stripOriginSpec (base : PyStr) : PyStr :=
  if pyStartsWith base (lit "origin/") then base.drop 7 else base

/-! ### Projections used by theorem statements -/

/-- Lowercase hex digit, the alphabet of `str(uuid.uuid4())[:8]`. -/
def isHexLower (c : Char) : Bool :=
  isDigitB c || (97 ≤ c.toNat && c.toNat ≤ 102)

/-- Title carried by a remote MR call. -/
def mrCallTitle : MrCall → PyStr
  | .update _ title _ => title
  | .create _ _ title _ => title

/-- Whether a remote MR call is create-class. -/
def isCreateCall : MrCall → Bool
  | .create _ _ _ _ => true
  | .update _ _ _ => false

/-- Positions of the identifiers carried by the commits of a successful
rewrite. -/
def resultPositions : RewriteResult → Option (List (Option Nat))
  | .ok cs => some (cs.map (fun c => extract_position c.change_id))
  | _ => none

/-- A change identifier assembled from its three components, the shape
produced by `generate_change_id`. -/
def mkChangeId (u s p : PyStr) : PyStr := u ++ '@' :: (s ++ '@' :: p)

/-! ## Theorems -/

/-- C6: mapping load never fails — for every path `load_mapping` returns a
mapping, and it returns the empty mapping whenever the file is absent or its
contents are unparsable; when the file exists and parses, its contents are
returned. -/
theorem load_mapping_total_spec (readFile : PyStr → Option PyStr)
    (parseJson : PyStr → Option Mapping) (path : PyStr) :
    (readFile path = none → load_mapping readFile parseJson path = []) ∧
    (∀ c, readFile path = some c → parseJson c = none →
      load_mapping readFile parseJson path = []) ∧
    (∀ c d, readFile path = some c → parseJson c = some d →
      load_mapping readFile parseJson path = d) := by
  refine ⟨fun h => by simp [load_mapping, h],
    fun c h1 h2 => by simp [load_mapping, h1, h2],
    fun c d h1 h2 => by simp [load_mapping, h1, h2]⟩

/-- Witness for `load_mapping_total_spec` at a concrete file system with an
absent file. -/
theorem load_mapping_total_spec_witness :
    (fun (_ : PyStr) => (none : Option PyStr)) [] = none ∧
    load_mapping (fun _ => none) (fun _ => none) [] = [] :=
  ⟨rfl, (load_mapping_total_spec (fun _ => none) (fun _ => none) []).1 rfl⟩

/-- Every truncated title fits the 255-character bound. -/
theorem truncate_mr_title_le (t : PyStr) : (truncate_mr_title t 255).length ≤ 255 := by
  by_cases h : t.length ≤ 255
  · simp [truncate_mr_title, h]
  · simp only [truncate_mr_title, if_neg h]
    simp only [List.length_append, List.length_take]
    have : (lit "...").length = 3 := by decide
    omega

/-- C10: every title passed to `create_mr` or `update_mr` by the
reconciliation phase is `truncate_mr_title` of the commit subject, so it
never exceeds 255 characters; a title of length at most 255 passes through
unchanged, and a longer one becomes its first 252 characters plus an
ellipsis, of length exactly 255. -/
theorem mr_title_truncation_spec (createInfo : PyStr → MrInfo) (mapping : Mapping)
    (chain : List ChainEntry) :
    (∀ t : PyStr, t.length ≤ 255 → truncate_mr_title t 255 = t) ∧
    (∀ t : PyStr, 255 < t.length →
      truncate_mr_title t 255 = t.take 252 ++ lit "..." ∧
      (truncate_mr_title t 255).length = 255) ∧
    (∀ e ∈ chain,
      mrCallTitle (processMr createInfo mapping e).1 = truncate_mr_title e.subject 255 ∧
      (mrCallTitle (processMr createInfo mapping e).1).length ≤ 255) := by
  refine ⟨fun t h => by simp [truncate_mr_title, h], fun t h => ?_, fun e _ => ?_⟩
  · have hn : ¬ t.length ≤ 255 := by omega
    refine ⟨by simp [truncate_mr_title, hn], ?_⟩
    simp only [truncate_mr_title, if_neg hn, List.length_append, List.length_take]
    have : (lit "...").length = 3 := by decide
    omega
  · have hcall : mrCallTitle (processMr createInfo mapping e).1 =
        truncate_mr_title e.subject 255 := by
      unfold processMr
      rcases e.change_id with _ | cid
      · simp [mrCallTitle]
      · rcases h : dictGet mapping cid with _ | info <;> simp [h, mrCallTitle]
    exact ⟨hcall, hcall ▸ truncate_mr_title_le e.subject⟩

/-- Sources of a chain are the branch names of the respective commits. -/
theorem buildMrChainAux_map_source (u : PyStr) :
    ∀ (cs : List Commit) (prev : PyStr),
      (buildMrChainAux u prev cs).map (fun e => e.source_branch) =
        cs.map (fun c => get_branch_name u (cidStr c.change_id)) := by
  intro cs
  induction cs with
  | nil => intro prev; rfl
  | cons c rest ih => intro prev; simp [buildMrChainAux, ih]

/-- Targets of a non-empty chain are the initial target followed by the
branch names of all commits but the last. -/
theorem buildMrChainAux_map_target (u : PyStr) :
    ∀ (cs : List Commit) (prev : PyStr), cs ≠ [] →
      (buildMrChainAux u prev cs).map (fun e => e.target_branch) =
        prev :: cs.dropLast.map (fun c => get_branch_name u (cidStr c.change_id)) := by
  intro cs
  induction cs with
  | nil => intro prev h; exact absurd rfl h
  | cons c rest ih =>
    intro prev _
    rcases rest with _ | ⟨d, rest2⟩
    · rfl
    · have step : (buildMrChainAux u prev (c :: d :: rest2)).map (fun e => e.target_branch) =
          prev :: (buildMrChainAux u (get_branch_name u (cidStr c.change_id))
            (d :: rest2)).map (fun e => e.target_branch) := rfl
      rw [step, ih (get_branch_name u (cidStr c.change_id)) (by simp)]
      simp [List.dropLast]

/-- C4 (amended): chain construction gives entry 0 the base branch with
every occurrence of the substring `origin/` removed (the code uses
`str.replace`, not a prefix strip) as target, gives every later entry the
source branch of its predecessor as target, and derives every source branch
from the entry's own change identifier; a 3-commit stack on base `main`
targets `[main, branch(commit1), branch(commit2)]`. -/
theorem build_mr_chain_spec (userName : PyStr) (commits : List Commit) (base : PyStr)
    (hne : commits ≠ []) (hids : ∀ c ∈ commits, c.change_id.isSome) :
    (build_mr_chain userName commits base).map (fun e => e.source_branch) =
      commits.map (fun c => get_branch_name userName (cidStr c.change_id)) ∧
    (build_mr_chain userName commits base).map (fun e => e.target_branch) =
      pyReplace base (lit "origin/") [] ::
        commits.dropLast.map (fun c => get_branch_name userName (cidStr c.change_id)) ∧
    (∀ c1 c2 c3 : Commit,
      (build_mr_chain userName [c1, c2, c3] (lit "main")).map (fun e => e.target_branch) =
        [lit "main", get_branch_name userName (cidStr c1.change_id),
          get_branch_name userName (cidStr c2.change_id)]) := by
  refine ⟨buildMrChainAux_map_source userName commits _,
    buildMrChainAux_map_target userName commits _ hne, fun c1 c2 c3 => ?_⟩
  have hmain : pyReplace (lit "main") (lit "origin/") [] = lit "main" := by decide
  rw [build_mr_chain, buildMrChainAux_map_target userName [c1, c2, c3] _ (by simp), hmain]
  simp

/-- Witness for `build_mr_chain_spec` at a one-commit stack on base
`origin/main`. -/
theorem build_mr_chain_spec_witness :
    (build_mr_chain (lit "user") [⟨1, some (lit "aa@s@1"), [], []⟩]
        (lit "origin/main")).map (fun e => e.target_branch) =
      pyReplace (lit "origin/main") (lit "origin/") [] ::
        ([⟨1, some (lit "aa@s@1"), [], []⟩] : List Commit).dropLast.map
          (fun c => get_branch_name (lit "user") (cidStr c.change_id)) :=
  (build_mr_chain_spec (lit "user") [⟨1, some (lit "aa@s@1"), [], []⟩]
    (lit "origin/main") (by simp) (by decide)).2.1

/-- Counterexample to C4 as stated: for the base branch `feature/origin/x`
the code removes the inner occurrence of `origin/` (Python
`str.replace` replaces every occurrence), whereas stripping a
remote-tracking prefix, as the specification words it, would leave the name
unchanged. -/
theorem build_mr_chain_origin_counterexample :
    (build_mr_chain (lit "user") [⟨1, some (lit "aa@s@1"), [], []⟩]
        (lit "feature/origin/x")).map (fun e => e.target_branch) = [lit "feature/x"] ∧
    stripOriginSpec (lit "feature/origin/x") = lit "feature/origin/x" ∧
    ¬ (build_mr_chain (lit "user") [⟨1, some (lit "aa@s@1"), [], []⟩]
        (lit "feature/origin/x")).map (fun e => e.target_branch) =
      [stripOriginSpec (lit "feature/origin/x")] := by
  exact ⟨by decide, by decide, by decide⟩

/-- Characterisation of the single-character membership test. -/
theorem pyContainsChar_false_iff (s : PyStr) (c : Char) :
    pyContainsChar s c = false ↔ c ∉ s := by
  unfold pyContainsChar
  rw [← Bool.not_eq_true, List.any_eq_true]
  simp only [decide_eq_true_eq]
  constructor
  · intro h hm
    exact h ⟨c, hm, rfl⟩
  · rintro h ⟨d, hd, rfl⟩
    exact h hd

/-- A string of characters drawn from a class excluding some character does
not contain it. -/
theorem not_contains_of_all {p : Char → Bool} {s : PyStr} {x : Char}
    (hp : p x = false) (h : s.all p = true) : pyContainsChar s x = false := by
  rw [pyContainsChar_false_iff]
  intro hm
  have h2 := List.all_eq_true.mp h x hm
  simp [h2] at hp

/-- Splitting never yields the empty list of pieces. -/
theorem pySplitChar_ne_nil : ∀ (s : PyStr) (sep : Char), pySplitChar s sep ≠ [] := by
  intro s sep
  induction s with
  | nil => simp [pySplitChar]
  | cons c rest ih =>
    by_cases h : c = sep
    · simp [pySplitChar, h]
    · simp only [pySplitChar, if_neg h]
      rcases hr : pySplitChar rest sep with _ | ⟨p, ps⟩
      · exact absurd hr ih
      · simp

/-- A string without the separator splits into one piece. -/
theorem pySplitChar_no_sep : ∀ (s : PyStr) (sep : Char),
    pyContainsChar s sep = false → pySplitChar s sep = [s] := by
  intro s sep
  induction s with
  | nil => intro _; rfl
  | cons c rest ih =>
    intro h
    rw [pyContainsChar_false_iff] at h
    have hc : ¬ c = sep := fun hh => h (hh ▸ List.mem_cons_self c rest)
    have hrest : pyContainsChar rest sep = false :=
      (pyContainsChar_false_iff rest sep).mpr (fun hm => h (List.mem_cons_of_mem c hm))
    simp only [pySplitChar, if_neg hc, ih hrest]

/-- Splitting at an explicit separator occurrence after a separator-free
piece. -/
theorem pySplitChar_append : ∀ (a b : PyStr) (sep : Char),
    pyContainsChar a sep = false →
    pySplitChar (a ++ sep :: b) sep = a :: pySplitChar b sep := by
  intro a
  induction a with
  | nil => intro b sep _; simp [pySplitChar]
  | cons c a2 ih =>
    intro b sep h
    rw [pyContainsChar_false_iff] at h
    have hc : ¬ c = sep := fun hh => h (hh ▸ List.mem_cons_self c a2)
    have ha2 : pyContainsChar a2 sep = false :=
      (pyContainsChar_false_iff a2 sep).mpr (fun hm => h (List.mem_cons_of_mem c hm))
    simp only [List.cons_append, pySplitChar, if_neg hc, List.append_eq, ih b sep ha2]

/-- Rendering of a digit value below ten is a digit character. -/
theorem digitChar_isDigitB (m : Nat) (h : m < 10) : isDigitB (digitChar m) = true := by
  interval_cases m <;> decide

/-- Numeric value of a rendered digit. -/
theorem digitChar_toNat (m : Nat) (h : m < 10) : (digitChar m).toNat - 48 = m := by
  interval_cases m <;> decide

/-- The fuel-driven decimal rendering is a non-empty digit string that
parses back to its input, for sufficient fuel. -/
theorem natToDigitsAux_spec : ∀ (fuel n : Nat), n < fuel →
    natToDigitsAux fuel n ≠ [] ∧ (natToDigitsAux fuel n).all isDigitB = true ∧
      digitsToNat (natToDigitsAux fuel n) = n := by
  intro fuel
  induction fuel with
  | zero => intro n h; omega
  | succ f ih =>
    intro n h
    by_cases h10 : n < 10
    · refine ⟨by simp [natToDigitsAux, h10], ?_, ?_⟩
      · simp [natToDigitsAux, h10, digitChar_isDigitB n h10]
      · simp [natToDigitsAux, h10, digitsToNat, digitChar_toNat n h10]
    · have hpos : 0 < n := by omega
      have hdiv : n / 10 < f := by
        have h1 : n / 10 < n := Nat.div_lt_self hpos (by omega)
        omega
      obtain ⟨h1, h2, h3⟩ := ih (n / 10) hdiv
      have hmod : n % 10 < 10 := Nat.mod_lt n (by omega)
      refine ⟨by simp [natToDigitsAux, h10], ?_, ?_⟩
      · simp [natToDigitsAux, h10, List.all_append, h2, digitChar_isDigitB _ hmod]
      · simp only [natToDigitsAux, if_neg h10]
        simp only [digitsToNat, List.foldl_append, List.foldl_cons, List.foldl_nil]
        have := digitChar_toNat (n % 10) hmod
        have hrec : List.foldl (fun acc c => acc * 10 + (c.toNat - 48)) 0
            (natToDigitsAux f (n / 10)) = n / 10 := h3
        rw [hrec, this]
        omega

/-- Decimal rendering: non-empty, all digits, and parsed back by the
model of Python `int`. -/
theorem natToDigits_spec (n : Nat) :
    natToDigits n ≠ [] ∧ (natToDigits n).all isDigitB = true ∧
      digitsToNat (natToDigits n) = n :=
  natToDigitsAux_spec (n + 1) n (by omega)

/-- A validated stack name contains no delimiter. -/
theorem validate_no_at (s : PyStr) (h : validate_stack_name s = true) :
    pyContainsChar s '@' = false := by
  unfold validate_stack_name at h
  by_cases h1 : s.isEmpty
  · simp [h1] at h
  · by_cases h2 : pyContainsChar s '@'
    · simp [h1, h2] at h
    · simpa using h2

/-- C5: the identity codec round-trips — for every validated stack name and
positive position, the generated identifier is in the two-delimiter format,
the stack name and position extract back exactly, and the extractors are
total functions returning `none` on missing, empty or malformed input. -/
theorem change_id_codec_roundtrip (uuidPart stackName : PyStr) (pos : Nat)
    (huuid : uuidPart.all isHexLower = true)
    (hstack : validate_stack_name stackName = true)
    (hpos : 1 ≤ pos) :
    (generate_change_id uuidPart stackName pos).count '@' = 2 ∧
    extract_stack_name (some (generate_change_id uuidPart stackName pos)) = some stackName ∧
    extract_position (some (generate_change_id uuidPart stackName pos)) = some pos ∧
    extract_stack_name none = none ∧
    extract_position none = none ∧
    extract_stack_name (some []) = none ∧
    extract_position (some []) = none ∧
    (∀ s : PyStr, pyContainsChar s '@' = true → (pySplitChar s '@').length ≠ 3 →
      extract_stack_name (some s) = none ∧ extract_position (some s) = none) := by
  obtain ⟨hdne, hdall, hdval⟩ := natToDigits_spec pos
  have hA : pyContainsChar uuidPart '@' = false :=
    not_contains_of_all (by decide) huuid
  have hB : pyContainsChar stackName '@' = false := validate_no_at stackName hstack
  have hD : pyContainsChar (natToDigits pos) '@' = false :=
    not_contains_of_all (by decide) hdall
  have hshape : generate_change_id uuidPart stackName pos =
      uuidPart ++ '@' :: (stackName ++ '@' :: natToDigits pos) := by
    simp [generate_change_id]
  have hsplit : pySplitChar (generate_change_id uuidPart stackName pos) '@' =
      [uuidPart, stackName, natToDigits pos] := by
    rw [hshape, pySplitChar_append uuidPart _ '@' hA, pySplitChar_append stackName _ '@' hB,
      pySplitChar_no_sep _ '@' hD]
  have hne : (generate_change_id uuidPart stackName pos).isEmpty = false := by
    unfold generate_change_id
    rcases uuidPart with _ | ⟨c, r⟩ <;> simp
  have hcont : pyContainsChar (generate_change_id uuidPart stackName pos) '@' = true := by
    unfold generate_change_id
    simp [pyContainsChar]
  have hnotmemA : '@' ∉ uuidPart := (pyContainsChar_false_iff _ _).mp hA
  have hnotmemB : '@' ∉ stackName := (pyContainsChar_false_iff _ _).mp hB
  have hnotmemD : '@' ∉ natToDigits pos := (pyContainsChar_false_iff _ _).mp hD
  refine ⟨?_, ?_, ?_, rfl, rfl, by simp [extract_stack_name], by simp [extract_position],
    fun s hc hl => ⟨?_, ?_⟩⟩
  · unfold generate_change_id
    simp [List.count_append, List.count_cons, List.count_eq_zero.mpr hnotmemA,
      List.count_eq_zero.mpr hnotmemB, List.count_eq_zero.mpr hnotmemD]
  · simp only [extract_stack_name, hne, Bool.false_eq_true, if_false, hcont, if_true,
      hsplit]
  · have hdigit : pyIsDigitStr (natToDigits pos) = true := by
      simp [pyIsDigitStr, hdall, List.isEmpty_iff, hdne]
    simp only [extract_position, hne, Bool.false_eq_true, if_false, hcont, if_true,
      hsplit]
    simp [hdigit, hdval]
  · have hsne : s.isEmpty = false := by
      rcases s with _ | _
      · simp [pyContainsChar] at hc
      · simp
    simp only [extract_stack_name, hsne, Bool.false_eq_true, if_false, hc, if_true]
    rcases hp : pySplitChar s '@' with _ | ⟨a, _ | ⟨b, _ | ⟨c, _ | d⟩⟩⟩ <;>
      simp_all
  · have hsne : s.isEmpty = false := by
      rcases s with _ | _
      · simp [pyContainsChar] at hc
      · simp
    simp only [extract_position, hsne, Bool.false_eq_true, if_false, hc, if_true]
    rcases hp : pySplitChar s '@' with _ | ⟨a, _ | ⟨b, _ | ⟨c, _ | d⟩⟩⟩ <;>
      simp_all

/-- Witness for `change_id_codec_roundtrip`: a concrete identifier
round-trips. -/
theorem change_id_codec_roundtrip_witness :
    validate_stack_name (lit "my-feature") = true ∧
    extract_stack_name (some (generate_change_id (lit "a1b2c3d4") (lit "my-feature") 3)) =
      some (lit "my-feature") ∧
    extract_position (some (generate_change_id (lit "a1b2c3d4") (lit "my-feature") 3)) =
      some 3 :=
  ⟨by decide,
    (change_id_codec_roundtrip (lit "a1b2c3d4") (lit "my-feature") 3
      (by decide) (by decide) (by decide)).2.1,
    (change_id_codec_roundtrip (lit "a1b2c3d4") (lit "my-feature") 3
      (by decide) (by decide) (by decide)).2.2.1⟩

/-- Lookup distributes over concatenation of association lists. -/
theorem dictGet_append : ∀ (m l : Mapping) (k : PyStr),
    dictGet (m ++ l) k =
      (match dictGet m k with
       | some v => some v
       | none => dictGet l k) := by
  intro m
  induction m with
  | nil => intro l k; rfl
  | cons p rest ih =>
    intro l k
    rcases p with ⟨a, b⟩
    by_cases ha : a = k
    · simp [dictGet, ha]
    · simp only [List.cons_append, dictGet, if_neg ha]
      exact ih l k

/-- In-place update hits its own key. -/
theorem dictGet_map_update_self : ∀ (m : Mapping) (k : PyStr) (v : MrInfo),
    (dictGet m k).isSome →
    dictGet (m.map (fun p => if p.1 = k then (k, v) else p)) k = some v := by
  intro m
  induction m with
  | nil => intro k v h; simp [dictGet] at h
  | cons p rest ih =>
    intro k v h
    rcases p with ⟨a, b⟩
    by_cases ha : a = k
    · subst ha
      have hhead : (if (a, b).1 = a then (a, v) else (a, b)) = (a, v) := by simp
      rw [List.map_cons, hhead]
      simp [dictGet]
    · simp only [dictGet, if_neg ha] at h
      have hhead : (if (a, b).1 = k then (k, v) else (a, b)) = (a, b) := by simp [ha]
      rw [List.map_cons, hhead]
      simp [dictGet, ha, ih k v h]

/-- In-place update leaves other keys alone. -/
theorem dictGet_map_update_other : ∀ (m : Mapping) (k k2 : PyStr) (v : MrInfo), k2 ≠ k →
    dictGet (m.map (fun p => if p.1 = k then (k, v) else p)) k2 = dictGet m k2 := by
  intro m
  induction m with
  | nil => intro k k2 v _; rfl
  | cons p rest ih =>
    intro k k2 v h
    rcases p with ⟨a, b⟩
    by_cases ha : a = k
    · subst ha
      have hk2 : ¬ a = k2 := fun hh => h hh.symm
      have hhead : (if (a, b).1 = a then (a, v) else (a, b)) = (a, v) := by simp
      rw [List.map_cons, hhead]
      simp [dictGet, hk2, ih a k2 v h]
    · have hhead : (if (a, b).1 = k then (k, v) else (a, b)) = (a, b) := by simp [ha]
      rw [List.map_cons, hhead]
      by_cases ha2 : a = k2
      · subst ha2
        simp [dictGet]
      · simp [dictGet, ha2, ih k k2 v h]

/-- Assignment makes the key present with the assigned value. -/
theorem dictGet_insert_self (m : Mapping) (k : PyStr) (v : MrInfo) :
    dictGet (dictInsert m k v) k = some v := by
  unfold dictInsert
  by_cases h : (dictGet m k).isSome
  · rw [if_pos h]
    exact dictGet_map_update_self m k v h
  · have hn : dictGet m k = none := by
      cases hh : dictGet m k
      · rfl
      · simp [hh] at h
    rw [if_neg h, dictGet_append, hn]
    simp [dictGet]

/-- Assignment leaves other keys alone. -/
theorem dictGet_insert_other (m : Mapping) (k k2 : PyStr) (v : MrInfo) (h : k2 ≠ k) :
    dictGet (dictInsert m k v) k2 = dictGet m k2 := by
  unfold dictInsert
  by_cases hp : (dictGet m k).isSome
  · rw [if_pos hp]
    exact dictGet_map_update_other m k k2 v h
  · rw [if_neg hp, dictGet_append]
    cases hh : dictGet m k2
    · have hk : ¬ k = k2 := fun hh2 => h hh2.symm
      simp [dictGet, if_neg hk]
    · simp

/-- Unfolding of the post-phase mapping update. -/
theorem recordCreates_cons (ci : PyStr → MrInfo) (r : MrCall × Option PyStr)
    (rest : List (MrCall × Option PyStr)) (m : Mapping) :
    recordCreates ci (r :: rest) m =
      recordCreates ci rest
        (match r.2 with
         | some cid => if cid.isEmpty then m else dictInsert m cid (ci cid)
         | none => m) := rfl

/-- Keys not created by the phase keep their lookup. -/
theorem recordCreates_get_of_not_created (ci : PyStr → MrInfo) :
    ∀ (results : List (MrCall × Option PyStr)) (m : Mapping) (k : PyStr),
      (∀ r ∈ results, r.2 ≠ some k) →
      dictGet (recordCreates ci results m) k = dictGet m k := by
  intro results
  induction results with
  | nil => intro m k _; rfl
  | cons r rest ih =>
    intro m k h
    have hr : r.2 ≠ some k := h r (List.mem_cons_self r rest)
    have hrest : ∀ x ∈ rest, x.2 ≠ some k := fun x hx => h x (List.mem_cons_of_mem r hx)
    rw [recordCreates_cons]
    cases hc : r.2 with
    | none => exact ih m k hrest
    | some c =>
      have hck : ¬ k = c := fun hh => hr (by rw [hc, hh])
      by_cases hce : c.isEmpty
      · have hacc : (match (some c : Option PyStr) with
            | some cid => if cid.isEmpty then m else dictInsert m cid (ci cid)
            | none => m) = m := by simp [hce]
        rw [hacc]
        exact ih m k hrest
      · have hacc : (match (some c : Option PyStr) with
            | some cid => if cid.isEmpty then m else dictInsert m cid (ci cid)
            | none => m) = dictInsert m c (ci c) := by simp [hce]
        rw [hacc, ih _ k hrest, dictGet_insert_other m c k (ci c) hck]

/-- A key created by the phase ends up mapped to the create result. -/
theorem recordCreates_get_of_created (ci : PyStr → MrInfo) :
    ∀ (results : List (MrCall × Option PyStr)) (m : Mapping) (k : PyStr),
      k ≠ [] → (∃ r ∈ results, r.2 = some k) →
      dictGet (recordCreates ci results m) k = some (ci k) := by
  intro results
  induction results with
  | nil => intro m k _ hex; simp at hex
  | cons r rest ih =>
    intro m k hk hex
    by_cases hrest : ∃ x ∈ rest, x.2 = some k
    · rw [recordCreates_cons]
      exact ih _ k hk hrest
    · have hr : r.2 = some k := by
        rcases hex with ⟨x, hx, he⟩
        rcases List.mem_cons.mp hx with hxr | hxrest
        · rw [← hxr]; exact he
        · exact absurd ⟨x, hxrest, he⟩ hrest
      have hke : ¬ k.isEmpty := by simp [List.isEmpty_iff, hk]
      rw [recordCreates_cons, hr]
      have hacc : (match (some k : Option PyStr) with
          | some cid => if cid.isEmpty then m else dictInsert m cid (ci cid)
          | none => m) = dictInsert m k (ci k) := by simp [hke]
      rw [hacc, recordCreates_get_of_not_created ci rest _ k
        (fun x hx he => hrest ⟨x, hx, he⟩)]
      exact dictGet_insert_self m k (ci k)

/-- The phase never removes a key. -/
theorem recordCreates_isSome (ci : PyStr → MrInfo) :
    ∀ (results : List (MrCall × Option PyStr)) (m : Mapping) (k : PyStr),
      (dictGet m k).isSome →
      (dictGet (recordCreates ci results m) k).isSome := by
  intro results
  induction results with
  | nil => intro m k h; exact h
  | cons r rest ih =>
    intro m k h
    rw [recordCreates_cons]
    apply ih
    cases hc : r.2 with
    | none => exact h
    | some c =>
      by_cases hce : c.isEmpty
      · have hacc : (match (some c : Option PyStr) with
            | some cid => if cid.isEmpty then m else dictInsert m cid (ci cid)
            | none => m) = m := by simp [hce]
        rw [hacc]
        exact h
      · have hacc : (match (some c : Option PyStr) with
            | some cid => if cid.isEmpty then m else dictInsert m cid (ci cid)
            | none => m) = dictInsert m c (ci c) := by simp [hce]
        rw [hacc]
        by_cases hkc : k = c
        · rw [hkc, dictGet_insert_self]
          rfl
        · rw [dictGet_insert_other m c k (ci c) hkc]
          exact h

/-- An all-update phase leaves the mapping untouched. -/
theorem recordCreates_all_none (ci : PyStr → MrInfo) :
    ∀ (results : List (MrCall × Option PyStr)) (m : Mapping),
      (∀ r ∈ results, r.2 = none) → recordCreates ci results m = m := by
  intro results
  induction results with
  | nil => intro m _; rfl
  | cons r rest ih =>
    intro m h
    have hr : r.2 = none := h r (List.mem_cons_self r rest)
    rw [recordCreates_cons, hr]
    exact ih m (fun x hx => h x (List.mem_cons_of_mem r hx))

/-- A worker for a mapped entry issues one update call. -/
theorem processMr_of_found (ci : PyStr → MrInfo) (m : Mapping) (e : ChainEntry)
    (cid : PyStr) (info : MrInfo) (h1 : e.change_id = some cid)
    (h2 : dictGet m cid = some info) :
    processMr ci m e =
      (.update info.mr_iid (truncate_mr_title e.subject 255) e.target_branch, none) := by
  unfold processMr
  rw [h1]
  simp [h2]

/-- A worker for an unmapped entry issues one create call and reports the
identifier. -/
theorem processMr_of_missing (ci : PyStr → MrInfo) (m : Mapping) (e : ChainEntry)
    (cid : PyStr) (h1 : e.change_id = some cid) (h2 : dictGet m cid = none) :
    processMr ci m e =
      (.create e.source_branch e.target_branch (truncate_mr_title e.subject 255)
        (mrDescription e.message), some cid) := by
  unfold processMr
  rw [h1]
  simp [h2]

/-- A reported create belongs to the entry identifier and means the key was
absent at phase start. -/
theorem processMr_created (ci : PyStr → MrInfo) (m : Mapping) (e : ChainEntry)
    (c : PyStr) (h : (processMr ci m e).2 = some c) :
    e.change_id = some c ∧ dictGet m c = none := by
  rcases he : e.change_id with _ | cid
  · unfold processMr at h
    rw [he] at h
    simp at h
  · unfold processMr at h
    rw [he] at h
    rcases hd : dictGet m cid with _ | info
    · simp only [hd] at h
      have hcc : cid = c := by simpa using h
      subst hcc
      exact ⟨rfl, hd⟩
    · simp [hd] at h

/-- Counting occurrences satisfying a predicate through a projection equal
to a fixed value is bounded by the multiplicity of that value. -/
theorem countP_le_count_map {α β : Type} [DecidableEq β] (g : α → β) (q : α → Bool)
    (v : β) : ∀ l : List α, (∀ a ∈ l, q a = true → g a = v) →
      l.countP q ≤ (l.map g).count v := by
  intro l
  induction l with
  | nil => intro _; simp
  | cons a t ih =>
    intro h
    have ht := ih (fun x hx => h x (List.mem_cons_of_mem a hx))
    simp only [List.countP_cons, List.map_cons, List.count_cons]
    by_cases hq : q a = true
    · have hg : g a = v := h a (List.mem_cons_self a t) hq
      simp only [hq, hg, beq_self_eq_true, if_true]
      omega
    · have hq2 : q a = false := by
        cases hqa : q a
        · rfl
        · exact absurd hqa hq
      rw [hq2]
      simp only [Bool.false_eq_true, if_false]
      split <;> omega

/-- C1: the create-or-update phase is idempotent with respect to review
creation — an entry whose identifier is mapped gets exactly one update
call, an unmapped one gets exactly one create call and extends the mapping;
a second run over the same chain issues zero create-class calls and leaves
the mapping untouched, and across both runs at most one create is issued
per change identifier. -/
theorem push_create_or_update_idempotent (createInfo : PyStr → MrInfo)
    (mapping : Mapping) (chain : List ChainEntry)
    (hcid : ∀ e ∈ chain, e.change_id ≠ none ∧ e.change_id ≠ some [])
    (hnodup : (chain.map (fun e => e.change_id)).Nodup) :
    (∀ e ∈ chain, ∀ cid, e.change_id = some cid →
      (∀ info, dictGet mapping cid = some info →
        processMr createInfo mapping e =
          (.update info.mr_iid (truncate_mr_title e.subject 255) e.target_branch, none)) ∧
      (dictGet mapping cid = none →
        isCreateCall (processMr createInfo mapping e).1 = true ∧
        (processMr createInfo mapping e).2 = some cid ∧
        dictGet (create_or_update_mrs createInfo mapping chain).2 cid =
          some (createInfo cid))) ∧
    (create_or_update_mrs createInfo
        (create_or_update_mrs createInfo mapping chain).2 chain).1.countP
      (fun r => isCreateCall r.1) = 0 ∧
    (create_or_update_mrs createInfo
        (create_or_update_mrs createInfo mapping chain).2 chain).2 =
      (create_or_update_mrs createInfo mapping chain).2 ∧
    (∀ cid : PyStr,
      ((create_or_update_mrs createInfo mapping chain).1 ++
        (create_or_update_mrs createInfo
          (create_or_update_mrs createInfo mapping chain).2 chain).1).countP
        (fun r => r.2 = some cid) ≤ 1) := by
  have hrun1 : (create_or_update_mrs createInfo mapping chain).1 =
      chain.map (processMr createInfo mapping) := rfl
  have hrun1m : (create_or_update_mrs createInfo mapping chain).2 =
      recordCreates createInfo (chain.map (processMr createInfo mapping)) mapping := rfl
  -- every chain identifier is present after the first run
  have hmem1 : ∀ e ∈ chain, ∀ cid, e.change_id = some cid →
      (dictGet (create_or_update_mrs createInfo mapping chain).2 cid).isSome := by
    intro e he cid hecid
    rw [hrun1m]
    cases hd : dictGet mapping cid with
    | some info =>
      exact recordCreates_isSome createInfo _ mapping cid (by rw [hd]; rfl)
    | none =>
      have hkne : cid ≠ [] := by
        intro hnil
        exact (hcid e he).2 (by rw [hecid, hnil])
      have hex : ∃ r ∈ chain.map (processMr createInfo mapping), r.2 = some cid := by
        refine ⟨processMr createInfo mapping e, List.mem_map_of_mem _ he, ?_⟩
        rw [processMr_of_missing createInfo mapping e cid hecid hd]
      rw [recordCreates_get_of_created createInfo _ mapping cid hkne hex]
      rfl
  -- every second-run worker sees a mapped identifier and issues an update
  have hrun2upd : ∀ e ∈ chain,
      isCreateCall (processMr createInfo
        (create_or_update_mrs createInfo mapping chain).2 e).1 = false ∧
      (processMr createInfo
        (create_or_update_mrs createInfo mapping chain).2 e).2 = none := by
    intro e he
    rcases he2 : e.change_id with _ | cid
    · exact absurd he2 (hcid e he).1
    · have hsome := hmem1 e he cid he2
      cases hd : dictGet (create_or_update_mrs createInfo mapping chain).2 cid with
      | none => rw [hd] at hsome; simp at hsome
      | some info =>
        rw [processMr_of_found createInfo _ e cid info he2 hd]
        exact ⟨rfl, rfl⟩
  refine ⟨?_, ?_, ?_, ?_⟩
  · intro e he cid hecid
    refine ⟨fun info hinfo => processMr_of_found createInfo mapping e cid info hecid hinfo,
      fun hd => ?_⟩
    have hmiss := processMr_of_missing createInfo mapping e cid hecid hd
    refine ⟨by rw [hmiss]; rfl, by rw [hmiss], ?_⟩
    have hkne : cid ≠ [] := by
      intro hnil
      exact (hcid e he).2 (by rw [hecid, hnil])
    rw [hrun1m]
    exact recordCreates_get_of_created createInfo _ mapping cid hkne
      ⟨processMr createInfo mapping e, List.mem_map_of_mem _ he, by rw [hmiss]⟩
  · rw [List.countP_eq_zero]
    intro r hr
    have : (create_or_update_mrs createInfo
        (create_or_update_mrs createInfo mapping chain).2 chain).1 =
        chain.map (processMr createInfo (create_or_update_mrs createInfo mapping chain).2) :=
      rfl
    rw [this] at hr
    rcases List.mem_map.mp hr with ⟨e, he, rfl⟩
    simp [(hrun2upd e he).1]
  · have hresults : ∀ r ∈ chain.map (processMr createInfo
        (create_or_update_mrs createInfo mapping chain).2), r.2 = none := by
      intro r hr
      rcases List.mem_map.mp hr with ⟨e, he, rfl⟩
      exact (hrun2upd e he).2
    exact recordCreates_all_none createInfo _ _ hresults
  · intro cid
    rw [List.countP_append]
    have hzero2 : (create_or_update_mrs createInfo
        (create_or_update_mrs createInfo mapping chain).2 chain).1.countP
        (fun r => r.2 = some cid) = 0 := by
      rw [List.countP_eq_zero]
      intro r hr
      have : (create_or_update_mrs createInfo
          (create_or_update_mrs createInfo mapping chain).2 chain).1 =
          chain.map (processMr createInfo
            (create_or_update_mrs createInfo mapping chain).2) := rfl
      rw [this] at hr
      rcases List.mem_map.mp hr with ⟨e, he, rfl⟩
      simp [(hrun2upd e he).2]
    have hone : (create_or_update_mrs createInfo mapping chain).1.countP
        (fun r => r.2 = some cid) ≤ 1 := by
      rw [hrun1, List.countP_map]
      have hbound := countP_le_count_map (fun e : ChainEntry => e.change_id)
        (fun e => decide ((processMr createInfo mapping e).2 = some cid))
        (some cid) chain
        (fun a _ hq =>
          (processMr_created createInfo mapping a cid (of_decide_eq_true hq)).1)
      have hconv : ((fun r : MrCall × Option PyStr => decide (r.2 = some cid)) ∘
          processMr createInfo mapping) =
          (fun e => decide ((processMr createInfo mapping e).2 = some cid)) := rfl
      rw [hconv]
      exact le_trans hbound (List.nodup_iff_count_le_one.mp hnodup (some cid))
    omega

/-- Witness for `push_create_or_update_idempotent` on a concrete two-entry
chain over an empty mapping: the second run issues zero create-class
calls. -/
theorem push_create_or_update_idempotent_witness :
    (∀ e ∈ ([⟨1, some (lit "aa@s@1"), lit "A", lit "A", lit "u/stack-aa@s@1", lit "main"⟩,
        ⟨2, some (lit "bb@s@2"), lit "B", lit "B", lit "u/stack-bb@s@2",
          lit "u/stack-aa@s@1"⟩] : List ChainEntry),
      e.change_id ≠ none ∧ e.change_id ≠ some []) ∧
    (create_or_update_mrs (fun _ => ⟨7, [], []⟩)
        (create_or_update_mrs (fun _ => ⟨7, [], []⟩) []
          [⟨1, some (lit "aa@s@1"), lit "A", lit "A", lit "u/stack-aa@s@1", lit "main"⟩,
            ⟨2, some (lit "bb@s@2"), lit "B", lit "B", lit "u/stack-bb@s@2",
              lit "u/stack-aa@s@1"⟩]).2
        [⟨1, some (lit "aa@s@1"), lit "A", lit "A", lit "u/stack-aa@s@1", lit "main"⟩,
          ⟨2, some (lit "bb@s@2"), lit "B", lit "B", lit "u/stack-bb@s@2",
            lit "u/stack-aa@s@1"⟩]).1.countP
      (fun r => isCreateCall r.1) = 0 :=
  ⟨by decide,
    (push_create_or_update_idempotent (fun _ => ⟨7, [], []⟩) []
      [⟨1, some (lit "aa@s@1"), lit "A", lit "A", lit "u/stack-aa@s@1", lit "main"⟩,
        ⟨2, some (lit "bb@s@2"), lit "B", lit "B", lit "u/stack-bb@s@2",
          lit "u/stack-aa@s@1"⟩] (by decide) (by decide)).2.1⟩

/-- C7: the production command runner retries only transient failures, with
exponential backoff delays of `2 ^ attempt` seconds, up to three attempts;
a non-transient error at the first attempt fails permanently with no retry
and no sleep; a success at any attempt returns that attempt's stripped
standard output. -/
theorem run_glab_retry_spec (outcomes : Nat → CmdResult) :
    ((outcomes 0).returncode ≠ 0 → isRetryable (outcomes 0) = false →
      run_glab_command outcomes true 3 = ⟨1, [], .raised (outcomes 0)⟩) ∧
    (∀ k, k < 3 →
      (∀ i, i < k → (outcomes i).returncode ≠ 0 ∧ isRetryable (outcomes i) = true) →
      (outcomes k).returncode = 0 →
      run_glab_command outcomes true 3 =
        ⟨k + 1, (List.range k).map (fun a => 2 ^ a),
          .returned (pyStrip (outcomes k).stdout)⟩) ∧
    ((∀ i, i < 3 → (outcomes i).returncode ≠ 0 ∧ isRetryable (outcomes i) = true) →
      run_glab_command outcomes true 3 = ⟨3, [1, 2], .raised (outcomes 2)⟩) := by
  refine ⟨fun h1 h2 => ?_, fun k hk hprev h0 => ?_, fun hall => ?_⟩
  · simp [run_glab_command, runGlabAux, h1, h2]
  · interval_cases k
    · simp [run_glab_command, runGlabAux, h0] <;> decide
    · obtain ⟨ha, hb⟩ := hprev 0 (by omega)
      simp [run_glab_command, runGlabAux, ha, hb, h0] <;> decide
    · obtain ⟨ha, hb⟩ := hprev 0 (by omega)
      obtain ⟨hc, hd⟩ := hprev 1 (by omega)
      simp [run_glab_command, runGlabAux, ha, hb, hc, hd, h0, List.range_succ] <;> decide
  · obtain ⟨ha, hb⟩ := hall 0 (by omega)
    obtain ⟨hc, hd⟩ := hall 1 (by omega)
    obtain ⟨he, hf⟩ := hall 2 (by omega)
    simp [run_glab_command, runGlabAux, ha, hb, hc, hd, he, hf] <;> decide

/-- Witness for `run_glab_retry_spec`: a first-attempt permission error is
not retried. -/
theorem run_glab_retry_spec_witness :
    isRetryable ⟨1, [], lit "permission denied"⟩ = false ∧
    run_glab_command (fun _ => ⟨1, [], lit "permission denied"⟩) true 3 =
      ⟨1, [], .raised ⟨1, [], lit "permission denied"⟩⟩ :=
  ⟨by decide,
    (run_glab_retry_spec (fun _ => ⟨1, [], lit "permission denied"⟩)).1
      (by decide) (by decide)⟩

/-- The warning loop of the dependency phase prints at most one
feature-unavailable warning. -/
theorem reportDepResults_le_one : ∀ l : List (Option DepStatus),
    reportDepResults l ≤ 1 := by
  intro l
  induction l with
  | nil => simp [reportDepResults]
  | cons o rest ih =>
    cases o with
    | none => simpa [reportDepResults] using ih
    | some s => cases s <;> simp [reportDepResults, ih]

/-- A dependency worker issues exactly the call its entry is eligible
for, whatever the client answers. -/
theorem depEntryResult_calls (client : Nat → List Nat → DepClientResult)
    (mapping : Mapping) (chain : List ChainEntry) (i : Nat) (c : ChainEntry) :
    (depEntryResult client mapping chain i c).2 =
      (eligibleDepCall mapping chain i c).toList := by
  unfold depEntryResult eligibleDepCall
  by_cases hi : i = 0
  · simp [hi]
  · simp only [if_neg hi]
    rcases hcid : c.change_id with _ | cid
    · rfl
    · rcases hd : dictGet mapping cid with _ | info
      · simp [hd]
      · rcases hg : chain.get? (i - 1) with _ | prevC
        · simp [hd, hg]
        · rcases hpc : prevC.change_id with _ | pcid
          · simp [hd, hg, hpc]
          · rcases hp : dictGet mapping pcid with _ | pinfo
            · simp [hd, hg, hpc, hp]
            · cases hc : client info.mr_iid [pinfo.mr_iid] <;>
                simp [hd, hg, hpc, hp, hc]

/-- C9 (amended): the hosting client signals a distinguished condition (the
`ValueError`) when the dependency endpoint answers 404 and re-raises any
other command failure; the engine prints at most one warning and finishes
the phase normally; but because every eligible entry's call is dispatched
to the worker pool before any result is observed, the calls issued are
exactly the eligible ones regardless of the client's answers — seeing the
feature-unavailable signal does not prevent the remaining calls. -/
theorem set_mr_dependencies_spec :
    (∀ (runCmd : Nat → DepCmd) (b : Nat) (r : CmdResult), runCmd 0 = .fail r →
      ((containsSub r.stderr (lit "404") || containsSub r.stdout (lit "404")) = true →
        set_mr_dependencies_client runCmd [b] 0 = .featureUnavailable) ∧
      ((containsSub r.stderr (lit "404") || containsSub r.stdout (lit "404")) = false →
        set_mr_dependencies_client runCmd [b] 0 = .raised r)) ∧
    (∀ (client : Nat → List Nat → DepClientResult) (mapping : Mapping)
        (chain : List ChainEntry),
      (set_mr_dependencies_engine client mapping chain).1 =
        eligibleDepCalls mapping chain ∧
      (set_mr_dependencies_engine client mapping chain).2 ≤ 1) := by
  refine ⟨fun runCmd b r hfail => ⟨fun h404 => ?_, fun hother => ?_⟩,
    fun client mapping chain => ⟨?_, reportDepResults_le_one _⟩⟩
  · simp [set_mr_dependencies_client, hfail, h404]
  · simp [set_mr_dependencies_client, hfail, hother]
  · unfold set_mr_dependencies_engine eligibleDepCalls
    have key : ∀ l : List (Nat × ChainEntry),
        ((l.map (fun p => depEntryResult client mapping chain p.1 p.2)).map
          (fun r => r.2)).flatten =
          l.filterMap (fun p => eligibleDepCall mapping chain p.1 p.2) := by
      intro l
      induction l with
      | nil => rfl
      | cons p rest ih =>
        simp only [List.map_cons, List.flatten_cons, List.filterMap_cons,
          depEntryResult_calls, ih]
        rcases he : eligibleDepCall mapping chain p.1 p.2 with _ | call <;> simp
    exact key chain.enum

/-- Witness for `set_mr_dependencies_spec`: a concrete 404 command failure
becomes the distinguished signal. -/
theorem set_mr_dependencies_spec_witness :
    (containsSub (lit "Error 404 not found") (lit "404") ||
      containsSub ([] : PyStr) (lit "404")) = true ∧
    set_mr_dependencies_client (fun _ => .fail ⟨1, [], lit "Error 404 not found"⟩) [5] 0 =
      .featureUnavailable :=
  ⟨by decide,
    ((set_mr_dependencies_spec).1 (fun _ => .fail ⟨1, [], lit "Error 404 not found"⟩) 5
      ⟨1, [], lit "Error 404 not found"⟩ rfl).1 (by decide)⟩

/-- Counterexample to C9 as stated: on a three-entry chain whose backend
lacks the dependency capability, the engine still issues both dependency
calls — the call for the third entry is dispatched although the signal was
already produced by the second entry's call — while warning exactly once.
Stopping after the first signal would have issued only one call. -/
theorem set_mr_dependencies_counterexample :
    (set_mr_dependencies_engine (fun _ _ => .featureUnavailable)
        [(lit "aa@s@1", ⟨1, [], []⟩), (lit "bb@s@2", ⟨2, [], []⟩),
          (lit "cc@s@3", ⟨3, [], []⟩)]
        [⟨1, some (lit "aa@s@1"), [], [], [], []⟩,
          ⟨2, some (lit "bb@s@2"), [], [], [], []⟩,
          ⟨3, some (lit "cc@s@3"), [], [], [], []⟩]).1 =
      [⟨2, [1]⟩, ⟨3, [2]⟩] ∧
    (set_mr_dependencies_engine (fun _ _ => .featureUnavailable)
        [(lit "aa@s@1", ⟨1, [], []⟩), (lit "bb@s@2", ⟨2, [], []⟩),
          (lit "cc@s@3", ⟨3, [], []⟩)]
        [⟨1, some (lit "aa@s@1"), [], [], [], []⟩,
          ⟨2, some (lit "bb@s@2"), [], [], [], []⟩,
          ⟨3, some (lit "cc@s@3"), [], [], [], []⟩]).2 = 1 := by
  exact ⟨by decide, by decide⟩

/-- On a failed cherry-pick the loop aborts, restores and reports: branch
pointers, the backup ref and (via the backup) the head sha of the entry
state are reinstated, and no cherry-pick is left in progress.  The entry
state must be detached, which is how `_add_change_ids_to_commits` always
enters the loop. -/
theorem pickLoop_rollback (stackName : PyStr) (uuid : Nat → PyStr) (pickOk : Nat → Bool) :
    ∀ (cs : List Commit) (r : GitRepo) (i pos : Nat) (acc : List Commit),
      r.currentBranch = none →
      (pickLoop stackName uuid pickOk cs r i pos acc).2 = .cherryPickFailed →
      (pickLoop stackName uuid pickOk cs r i pos acc).1.branches = r.branches ∧
      (pickLoop stackName uuid pickOk cs r i pos acc).1.backupRef = r.backupRef ∧
      (pickLoop stackName uuid pickOk cs r i pos acc).1.cherryPickInProgress = false ∧
      (∀ b, r.backupRef = some b →
        (pickLoop stackName uuid pickOk cs r i pos acc).1.head = b) := by
  intro cs
  induction cs with
  | nil =>
    intro r i pos acc hcb h
    simp [pickLoop] at h
  | cons c rest ih =>
    intro r i pos acc hcb h
    rcases hcid : c.change_id with _ | cid
    · by_cases hp : pickOk i = true
      · simp only [pickLoop, hcid, hp, if_true] at h ⊢
        have hcb2 : (gitAmend (gitCherryPickOk r)).currentBranch = none := by
          simp [gitAmend, gitCherryPickOk, hcb]
        obtain ⟨h1, h2, h3, h4⟩ := ih (gitAmend (gitCherryPickOk r)) (i + 1) (pos + 1)
          _ hcb2 h
        refine ⟨?_, ?_, h3, fun b hb => ?_⟩
        · rw [h1]; simp [gitAmend, gitCherryPickOk]
        · rw [h2]; simp [gitAmend, gitCherryPickOk]
        · exact h4 b (by simp [gitAmend, gitCherryPickOk, hb])
      · have hp2 : pickOk i = false := by
          cases hpk : pickOk i
          · rfl
          · exact absurd hpk hp
        simp only [pickLoop, hcid, hp2, Bool.false_eq_true, if_false] at h ⊢
        rcases hb : r.backupRef with _ | sha
        · simp [restoreFromBackup, gitCherryPickAbort, gitCherryPickFail, hb, hcb]
        · simp [restoreFromBackup, gitCherryPickAbort, gitCherryPickFail, gitResetHard,
            hb, hcb]
    · by_cases hp : pickOk i = true
      · simp only [pickLoop, hcid, hp, if_true] at h ⊢
        have hcb2 : (gitCherryPickOk r).currentBranch = none := by
          simp [gitCherryPickOk, hcb]
        obtain ⟨h1, h2, h3, h4⟩ := ih (gitCherryPickOk r) (i + 1) _ _ hcb2 h
        refine ⟨?_, ?_, h3, fun b hb => ?_⟩
        · rw [h1]; simp [gitCherryPickOk]
        · rw [h2]; simp [gitCherryPickOk]
        · exact h4 b (by simp [gitCherryPickOk, hb])
      · have hp2 : pickOk i = false := by
          cases hpk : pickOk i
          · rfl
          · exact absurd hpk hp
        simp only [pickLoop, hcid, hp2, Bool.false_eq_true, if_false] at h ⊢
        rcases hb : r.backupRef with _ | sha
        · simp [restoreFromBackup, gitCherryPickAbort, gitCherryPickFail, hb, hcb]
        · simp [restoreFromBackup, gitCherryPickAbort, gitCherryPickFail, gitResetHard,
            hb, hcb]

/-- If any cherry-pick in range fails, the loop reports the distinguished
failure. -/
theorem pickLoop_fails (stackName : PyStr) (uuid : Nat → PyStr) (pickOk : Nat → Bool) :
    ∀ (cs : List Commit) (r : GitRepo) (i pos : Nat) (acc : List Commit),
      (∃ k, k < cs.length ∧ pickOk (i + k) = false) →
      (pickLoop stackName uuid pickOk cs r i pos acc).2 = .cherryPickFailed := by
  intro cs
  induction cs with
  | nil =>
    intro r i pos acc h
    rcases h with ⟨k, hk, _⟩
    simp at hk
  | cons c rest ih =>
    intro r i pos acc h
    rcases h with ⟨k, hk, hkf⟩
    by_cases hp : pickOk i = true
    · have hk0 : k ≠ 0 := by
        intro h0
        rw [h0, Nat.add_zero] at hkf
        rw [hkf] at hp
        cases hp
      have hrest : ∃ k2, k2 < rest.length ∧ pickOk (i + 1 + k2) = false := by
        refine ⟨k - 1, by simp at hk; omega, ?_⟩
        have : i + 1 + (k - 1) = i + k := by omega
        rw [this]
        exact hkf
      rcases hcid : c.change_id with _ | cid
      · simp only [pickLoop, hcid, hp, if_true]
        exact ih _ (i + 1) _ _ hrest
      · simp only [pickLoop, hcid, hp, if_true]
        exact ih _ (i + 1) _ _ hrest
    · have hp2 : pickOk i = false := by
        cases hpk : pickOk i
        · rfl
        · exact absurd hpk hp
      rcases hcid : c.change_id with _ | cid <;>
        simp [pickLoop, hcid, hp2]

/-- C2: the history rewrite is atomic on failure — when identifier
injection is needed and some cherry-pick fails, the run ends in the
distinguished cherry-pick error; in that case HEAD is restored by sha via
the Backup Reference, the branch pointers are untouched, no cherry-pick is
left in progress and the Backup Reference still exists; the Backup
Reference is deleted exactly on the fully successful path. -/
theorem add_change_ids_rollback (repo : GitRepo) (commits : List Commit)
    (stackName : PyStr) (uuid : Nat → PyStr) (pickOk : Nat → Bool)
    (parentSha : Nat → Nat)
    (hclean : repo.treeClean = true)
    (hneeds : commits.any (fun c => c.change_id.isNone) = true) :
    ((∃ i, i < commits.length ∧ pickOk i = false) →
      (add_change_ids_to_commits repo commits stackName uuid pickOk parentSha).2 =
        .cherryPickFailed) ∧
    ((add_change_ids_to_commits repo commits stackName uuid pickOk parentSha).2 =
        .cherryPickFailed →
      (add_change_ids_to_commits repo commits stackName uuid pickOk parentSha).1.head =
        repo.head ∧
      (add_change_ids_to_commits repo commits stackName uuid pickOk parentSha).1.branches =
        repo.branches ∧
      (add_change_ids_to_commits repo commits stackName uuid pickOk
        parentSha).1.cherryPickInProgress = false ∧
      (add_change_ids_to_commits repo commits stackName uuid pickOk
        parentSha).1.backupRef = some repo.head) ∧
    (∀ cs, (add_change_ids_to_commits repo commits stackName uuid pickOk
        parentSha).2 = .ok cs →
      (add_change_ids_to_commits repo commits stackName uuid pickOk
        parentSha).1.backupRef = none) := by
  have hall : commits.all (fun c => c.change_id.isSome) = false := by
    rcases List.any_eq_true.mp hneeds with ⟨c, hc, hcn⟩
    cases hA : commits.all (fun c => c.change_id.isSome)
    · rfl
    · have := List.all_eq_true.mp hA c hc
      rw [Option.isNone_iff_eq_none] at hcn
      rw [hcn] at this
      cases this
  have hnclean : (!repo.treeClean) = false := by rw [hclean]; rfl
  have hbase : add_change_ids_to_commits repo commits stackName uuid pickOk parentSha =
      (match pickLoop stackName uuid pickOk commits
          (gitCheckoutSha (oldestParent parentSha commits) (gitUpdateBackupRef repo))
          0 1 [] with
       | (r, .ok cs) =>
         (gitDeleteBackupRef (finishRewrite repo.currentBranch r cs), .ok cs)
       | (r, res) => (r, res)) := by
    unfold add_change_ids_to_commits
    rw [hall, hnclean]
    rfl
  have hcb0 : (gitCheckoutSha (oldestParent parentSha commits)
      (gitUpdateBackupRef repo)).currentBranch = none := by
    simp [gitCheckoutSha]
  rcases hpl : pickLoop stackName uuid pickOk commits
      (gitCheckoutSha (oldestParent parentSha commits) (gitUpdateBackupRef repo))
      0 1 [] with ⟨r, res⟩
  refine ⟨fun hex => ?_, fun hfail => ?_, fun cs hok => ?_⟩
  · have hf := pickLoop_fails stackName uuid pickOk commits
      (gitCheckoutSha (oldestParent parentSha commits) (gitUpdateBackupRef repo)) 0 1 []
      (by rcases hex with ⟨i, hi, hif⟩; exact ⟨i, hi, by simpa using hif⟩)
    rw [hpl] at hf
    simp only at hf
    rw [hbase, hpl, hf]
  · rw [hbase, hpl] at hfail ⊢
    have hres : res = .cherryPickFailed := by
      cases res with
      | ok cs => simp at hfail
      | cherryPickFailed => rfl
      | dirtyTree => simp at hfail
    subst hres
    have hploop := pickLoop_rollback stackName uuid pickOk commits
      (gitCheckoutSha (oldestParent parentSha commits) (gitUpdateBackupRef repo))
      0 1 [] hcb0 (by rw [hpl])
    rw [hpl] at hploop
    obtain ⟨h1, h2, h3, h4⟩ := hploop
    refine ⟨?_, ?_, ?_, ?_⟩
    · exact h4 repo.head (by simp [gitCheckoutSha, gitUpdateBackupRef])
    · rw [h1]; simp [gitCheckoutSha, gitUpdateBackupRef]
    · exact h3
    · rw [h2]; simp [gitCheckoutSha, gitUpdateBackupRef]
  · rw [hbase, hpl] at hok ⊢
    cases res with
    | ok cs2 => simp [gitDeleteBackupRef]
    | cherryPickFailed => simp at hok
    | dirtyTree => simp at hok

/-- Witness for `add_change_ids_rollback` at a concrete one-commit rewrite
whose cherry-pick fails: the error is reported and the state restored. -/
theorem add_change_ids_rollback_witness :
    (⟨10, some (lit "feature"), [(lit "feature", 10)], none, false, true,
        100⟩ : GitRepo).treeClean = true ∧
    (add_change_ids_to_commits
        ⟨10, some (lit "feature"), [(lit "feature", 10)], none, false, true, 100⟩
        [⟨6, none, lit "A", lit "A"⟩] (lit "feat") (fun _ => lit "aaaaaaaa")
        (fun _ => false) (fun _ => 5)).2 = .cherryPickFailed ∧
    (add_change_ids_to_commits
        ⟨10, some (lit "feature"), [(lit "feature", 10)], none, false, true, 100⟩
        [⟨6, none, lit "A", lit "A"⟩] (lit "feat") (fun _ => lit "aaaaaaaa")
        (fun _ => false) (fun _ => 5)).1.head = 10 :=
  ⟨rfl,
    (add_change_ids_rollback
      ⟨10, some (lit "feature"), [(lit "feature", 10)], none, false, true, 100⟩
      [⟨6, none, lit "A", lit "A"⟩] (lit "feat") (fun _ => lit "aaaaaaaa")
      (fun _ => false) (fun _ => 5) rfl (by decide)).1 ⟨0, by decide, rfl⟩,
    ((add_change_ids_rollback
      ⟨10, some (lit "feature"), [(lit "feature", 10)], none, false, true, 100⟩
      [⟨6, none, lit "A", lit "A"⟩] (lit "feat") (fun _ => lit "aaaaaaaa")
      (fun _ => false) (fun _ => 5) rfl (by decide)).2.1
      ((add_change_ids_rollback
        ⟨10, some (lit "feature"), [(lit "feature", 10)], none, false, true, 100⟩
        [⟨6, none, lit "A", lit "A"⟩] (lit "feat") (fun _ => lit "aaaaaaaa")
        (fun _ => false) (fun _ => 5) rfl (by decide)).1 ⟨0, by decide, rfl⟩)).1⟩

/-- C3 as the code behaves: inserting a new oldest commit into a stack
whose existing commits carry positions 1 to 4 assigns the new commit
position 1 (the loop counter restarts at 1; the `start_position`
computed at stack.py lines 416-421 is never used), not 5 as the
specification and the test suite state; the existing positions are kept. -/
theorem insert_oldest_gets_position_one :
    resultPositions
      (add_change_ids_to_commits
        ⟨10, some (lit "feature"), [(lit "feature", 10)], none, false, true, 100⟩
        [⟨6, none, lit "Zeroth", lit "Zeroth"⟩,
          ⟨7, some (lit "aaaaaaa1@test-feature@1"), lit "First", lit "First"⟩,
          ⟨8, some (lit "aaaaaaa2@test-feature@2"), lit "Second", lit "Second"⟩,
          ⟨9, some (lit "aaaaaaa3@test-feature@3"), lit "Third", lit "Third"⟩,
          ⟨11, some (lit "aaaaaaa4@test-feature@4"), lit "Fourth", lit "Fourth"⟩]
        (lit "test-feature") (fun _ => lit "bbbbbbbb") (fun _ => true)
        (fun _ => 5)).2 =
      some [some 1, some 1, some 2, some 3, some 4] := by
  decide

/-- Witness for `mr_title_truncation_spec`: a 300-character subject reaching
`create_mr` is cut to exactly 255 characters. -/
theorem mr_title_truncation_spec_witness :
    255 < (List.replicate 300 'a' : PyStr).length ∧
    (truncate_mr_title (List.replicate 300 'a') 255).length = 255 ∧
    mrCallTitle
        (processMr (fun _ => ⟨1, [], []⟩) []
          ⟨1, some (lit "aa@s@1"), List.replicate 300 'a', [], [], []⟩).1 =
      truncate_mr_title (List.replicate 300 'a') 255 := by
  refine ⟨by simp, ?_, ?_⟩
  · exact ((mr_title_truncation_spec (fun _ => ⟨1, [], []⟩) [] []).2.1
      (List.replicate 300 'a') (by simp)).2
  · exact (((mr_title_truncation_spec (fun _ => ⟨1, [], []⟩) []
      [⟨1, some (lit "aa@s@1"), List.replicate 300 'a', [], [], []⟩]).2.2)
      ⟨1, some (lit "aa@s@1"), List.replicate 300 'a', [], [], []⟩ (by simp)).1

/-! ### Lemmas about the Change-Id patterns (for C8) -/

/-- Hex-class characters belong to the stack-name class. -/
theorem isHexCI_isStackClassCI {c : Char} (h : isHexCI c = true) :
    isStackClassCI c = true := by
  simp only [isHexCI, isDigitB, isStackClassCI, Bool.or_eq_true, Bool.and_eq_true,
    decide_eq_true_eq] at h ⊢
  omega

/-- Hex-class characters are not whitespace. -/
theorem isHexCI_not_space {c : Char} (h : isHexCI c = true) : pySpace c = false := by
  simp only [isHexCI, isDigitB, pySpace, Bool.or_eq_true, Bool.and_eq_true,
    decide_eq_true_eq] at h
  simp only [pySpace, Bool.or_eq_true, Bool.and_eq_true, decide_eq_true_eq]
  simp only [Bool.or_eq_false_iff, decide_eq_false_iff_not, Bool.and_eq_false_iff]
  omega

/-- Stack-class characters are not whitespace. -/
theorem isStackClassCI_not_space {c : Char} (h : isStackClassCI c = true) :
    pySpace c = false := by
  simp only [isStackClassCI, isDigitB, Bool.or_eq_true, Bool.and_eq_true,
    decide_eq_true_eq] at h
  simp only [pySpace, Bool.or_eq_false_iff, decide_eq_false_iff_not,
    Bool.and_eq_false_iff]
  omega

/-- Digit characters are not whitespace. -/
theorem isDigitB_not_space {c : Char} (h : isDigitB c = true) : pySpace c = false := by
  simp only [isDigitB, Bool.and_eq_true, decide_eq_true_eq] at h
  simp only [pySpace, Bool.or_eq_false_iff, decide_eq_false_iff_not,
    Bool.and_eq_false_iff]
  omega

/-- Class characters are never the delimiter or a newline. -/
theorem isHexCI_ne_at {c : Char} (h : isHexCI c = true) : c ≠ '@' := by
  intro he
  rw [he] at h
  exact absurd h (by decide)

/-- Stack-class characters are not the delimiter. -/
theorem isStackClassCI_ne_at {c : Char} (h : isStackClassCI c = true) : c ≠ '@' := by
  intro he
  rw [he] at h
  exact absurd h (by decide)

/-- Delimiter character is not a digit. -/
theorem isDigitB_at : isDigitB '@' = false := by decide

/-- Stack-class characters are not a newline. -/
theorem isStackClassCI_ne_newline {c : Char} (h : isStackClassCI c = true) :
    c ≠ '\n' := by
  intro he
  rw [he] at h
  exact absurd h (by decide)

/-- Hex characters are not a newline. -/
theorem isHexCI_ne_newline {c : Char} (h : isHexCI c = true) : c ≠ '\n' := by
  intro he
  rw [he] at h
  exact absurd h (by decide)

/-- Digit characters are not a newline. -/
theorem isDigitB_ne_newline {c : Char} (h : isDigitB c = true) : c ≠ '\n' := by
  intro he
  rw [he] at h
  exact absurd h (by decide)

/-- A run entirely inside the class is taken whole. -/
theorem takeWhile_all_eq {p : Char → Bool} : ∀ {l : PyStr}, l.all p = true →
    l.takeWhile p = l := by
  intro l
  induction l with
  | nil => intro _; rfl
  | cons c t ih =>
    intro h
    rw [List.all_cons, Bool.and_eq_true] at h
    simp [List.takeWhile_cons, h.1, ih h.2]

/-- A run entirely inside the class is dropped whole. -/
theorem dropWhile_all_eq {p : Char → Bool} : ∀ {l : PyStr}, l.all p = true →
    l.dropWhile p = [] := by
  intro l
  induction l with
  | nil => intro _; rfl
  | cons c t ih =>
    intro h
    rw [List.all_cons, Bool.and_eq_true] at h
    simp [List.dropWhile_cons, h.1, ih h.2]

/-- Taking through an in-class block continues past it. -/
theorem takeWhile_append_all {p : Char → Bool} : ∀ (a b : PyStr), a.all p = true →
    (a ++ b).takeWhile p = a ++ b.takeWhile p := by
  intro a
  induction a with
  | nil => intro b _; rfl
  | cons c t ih =>
    intro b h
    rw [List.all_cons, Bool.and_eq_true] at h
    simp [List.takeWhile_cons, h.1, ih b h.2]

/-- Dropping through an in-class block continues past it. -/
theorem dropWhile_append_all {p : Char → Bool} : ∀ (a b : PyStr), a.all p = true →
    (a ++ b).dropWhile p = b.dropWhile p := by
  intro a
  induction a with
  | nil => intro b _; rfl
  | cons c t ih =>
    intro b h
    rw [List.all_cons, Bool.and_eq_true] at h
    simp [List.dropWhile_cons, h.1, ih b h.2]

/-- Taking stops at an out-of-class head. -/
theorem takeWhile_cons_ff {p : Char → Bool} {c : Char} (t : PyStr) (h : p c = false) :
    (c :: t).takeWhile p = [] := by
  simp [List.takeWhile_cons, h]

/-- Dropping stops at an out-of-class head. -/
theorem dropWhile_cons_ff {p : Char → Bool} {c : Char} (t : PyStr) (h : p c = false) :
    (c :: t).dropWhile p = c :: t := by
  simp [List.dropWhile_cons, h]

/-- Case-insensitive literal removal distributes over an appended tail: the
literal is consumed inside the first part, or the first part is consumed
whole and a remainder of the literal continues into the tail. -/
theorem stripLitCI_append : ∀ (l t E r : PyStr),
    stripLitCI l (t ++ E) = some r →
    (∃ r0, stripLitCI l t = some r0 ∧ r = r0 ++ E) ∨
    (t.length < l.length ∧ stripLitCI (l.drop t.length) E = some r) := by
  intro l
  induction l with
  | nil =>
    intro t E r h
    simp only [stripLitCI] at h
    exact Or.inl ⟨t, rfl, by injection h with h2; exact h2.symm⟩
  | cons lc ls ih =>
    intro t E r h
    rcases t with _ | ⟨c, cs⟩
    · exact Or.inr ⟨by simp, by simpa using h⟩
    · rw [List.cons_append] at h
      simp only [stripLitCI] at h
      by_cases hc : c.toLower = lc.toLower
      · rw [if_pos hc] at h
        rcases ih cs E r h with ⟨r0, h1, h2⟩ | ⟨h1, h2⟩
        · exact Or.inl ⟨r0, by simp [stripLitCI, hc, h1], h2⟩
        · exact Or.inr ⟨by simpa using Nat.succ_lt_succ h1, by simpa using h2⟩
      · rw [if_neg hc] at h
        cases h

/-- Successful case-insensitive removal of a non-empty literal fixes the
first character up to lowercasing. -/
theorem stripLitCI_cons_some {lc : Char} {ls s r : PyStr}
    (h : stripLitCI (lc :: ls) s = some r) :
    ∃ e es, s = e :: es ∧ e.toLower = lc.toLower ∧ stripLitCI ls es = some r := by
  rcases s with _ | ⟨e, es⟩
  · cases h
  · simp only [stripLitCI] at h
    by_cases he : e.toLower = lc.toLower
    · rw [if_pos he] at h
      exact ⟨e, es, rfl, he, h⟩
    · rw [if_neg he] at h
      cases h

/-- No proper non-empty piece of the `Change-Id:` literal continues into
text beginning with an uppercase C or a newline. -/
theorem tagLit_no_straddle : ∀ (k : Nat), 1 ≤ k → k < 10 → ∀ (X : PyStr),
    stripLitCI (tagLit.drop k) ('C' :: X) = none ∧
    stripLitCI (tagLit.drop k) ('\n' :: X) = none := by
  intro k h1 h2 X
  interval_cases k <;> exact ⟨rfl, rfl⟩

/-- The new-format pattern cannot match at a newline. -/
theorem matchNewAt_newline (Y : PyStr) : matchNewAt ('\n' :: Y) = none := rfl

/-- The legacy pattern cannot match at a newline. -/
theorem matchOldAt_newline (Y : PyStr) : matchOldAt ('\n' :: Y) = none := rfl

/-- Removal of the lowered label from an occurrence of the literal label
with its trailing space. -/
theorem stripLitCI_tag (X : PyStr) :
    stripLitCI tagLit (lit "Change-Id: " ++ X) = some (' ' :: X) := rfl

/-- The taken run satisfies the class. -/
theorem all_takeWhile {p : Char → Bool} : ∀ (l : PyStr), (l.takeWhile p).all p = true := by
  intro l
  induction l with
  | nil => rfl
  | cons c t ih =>
    rw [List.takeWhile_cons]
    by_cases hc : p c = true
    · simp [hc, ih]
    · simp [hc]

/-- Nothing dropped means everything is in the class. -/
theorem all_of_dropWhile_nil {p : Char → Bool} : ∀ {l : PyStr},
    l.dropWhile p = [] → l.all p = true := by
  intro l
  induction l with
  | nil => intro _; rfl
  | cons c t ih =>
    intro h
    rw [List.dropWhile_cons] at h
    by_cases hc : p c = true
    · rw [if_pos hc] at h
      simp [hc, ih h]
    · rw [if_neg hc] at h
      cases h

/-- The head surviving a drop is out of the class. -/
theorem dropWhile_head_ff {p : Char → Bool} : ∀ {l : PyStr} {c : Char} {t : PyStr},
    l.dropWhile p = c :: t → p c = false := by
  intro l
  induction l with
  | nil => intro c t h; cases h
  | cons d u ih =>
    intro c t h
    rw [List.dropWhile_cons] at h
    by_cases hd : p d = true
    · rw [if_pos hd] at h
      exact ih h
    · rw [if_neg hd] at h
      injection h with h1 _
      rw [← h1]
      cases hpd : p d
      · rfl
      · exact absurd hpd hd

/-- Newline padding is whitespace. -/
theorem pad_all_space {pad : PyStr} (h : pad.all (fun c => c = '\n') = true) :
    pad.all pySpace = true := by
  rw [List.all_eq_true] at h ⊢
  intro c hc
  have := h c hc
  rw [decide_eq_true_eq] at this
  rw [this]
  decide

/-- The new-format pattern matches at an occurrence of the injected line,
capturing exactly the three components, when the occurrence is followed by
nothing or by a newline. -/
theorem matchNewAt_tag (u s p b : PyStr)
    (hu : u ≠ []) (hua : u.all isHexCI = true)
    (hs : s ≠ []) (hsa : s.all isStackClassCI = true)
    (hp : p ≠ []) (hpa : p.all isDigitB = true)
    (hb : b = [] ∨ ∃ b2, b = '\n' :: b2) :
    matchNewAt (lit "Change-Id: " ++ (u ++ '@' :: (s ++ '@' :: (p ++ b)))) =
      some (u, s, p) := by
  have hue : u.isEmpty = false := by simp [List.isEmpty_iff, hu]
  have hse : s.isEmpty = false := by simp [List.isEmpty_iff, hs]
  have hpe : p.isEmpty = false := by simp [List.isEmpty_iff, hp]
  have huh : List.takeWhile pySpace (u ++ '@' :: (s ++ '@' :: (p ++ b))) = [] := by
    rcases u with _ | ⟨uh, ut⟩
    · exact absurd rfl hu
    · have hh : isHexCI uh = true := by
        rw [List.all_cons, Bool.and_eq_true] at hua
        exact hua.1
      rw [List.cons_append]
      exact takeWhile_cons_ff _ (isHexCI_not_space hh)
  have hudrop : List.dropWhile pySpace (u ++ '@' :: (s ++ '@' :: (p ++ b))) =
      u ++ '@' :: (s ++ '@' :: (p ++ b)) := by
    rcases u with _ | ⟨uh, ut⟩
    · exact absurd rfl hu
    · have hh : isHexCI uh = true := by
        rw [List.all_cons, Bool.and_eq_true] at hua
        exact hua.1
      rw [List.cons_append]
      exact dropWhile_cons_ff _ (isHexCI_not_space hh)
  have hws : List.takeWhile pySpace (' ' :: (u ++ '@' :: (s ++ '@' :: (p ++ b)))) =
      [' '] := by
    rw [List.takeWhile_cons]
    simp [(by decide : pySpace ' ' = true), huh]
  have hr1 : List.dropWhile pySpace (' ' :: (u ++ '@' :: (s ++ '@' :: (p ++ b)))) =
      u ++ '@' :: (s ++ '@' :: (p ++ b)) := by
    rw [List.dropWhile_cons]
    simp [(by decide : pySpace ' ' = true), hudrop]
  have hhx : List.takeWhile isHexCI (u ++ '@' :: (s ++ '@' :: (p ++ b))) = u := by
    rw [takeWhile_append_all u _ hua, takeWhile_cons_ff _
      (by decide : isHexCI '@' = false), List.append_nil]
  have hr2 : List.dropWhile isHexCI (u ++ '@' :: (s ++ '@' :: (p ++ b))) =
      '@' :: (s ++ '@' :: (p ++ b)) := by
    rw [dropWhile_append_all u _ hua]
    exact dropWhile_cons_ff _ (by decide : isHexCI '@' = false)
  have hst : List.takeWhile isStackClassCI (s ++ '@' :: (p ++ b)) = s := by
    rw [takeWhile_append_all s _ hsa, takeWhile_cons_ff _
      (by decide : isStackClassCI '@' = false), List.append_nil]
  have hr4 : List.dropWhile isStackClassCI (s ++ '@' :: (p ++ b)) = '@' :: (p ++ b) := by
    rw [dropWhile_append_all s _ hsa]
    exact dropWhile_cons_ff _ (by decide : isStackClassCI '@' = false)
  have hdg : List.takeWhile isDigitB (p ++ b) = p := by
    rw [takeWhile_append_all p b hpa]
    rcases hb with rfl | ⟨b2, rfl⟩
    · simp
    · rw [takeWhile_cons_ff _ (by decide : isDigitB '\n' = false), List.append_nil]
  simp [matchNewAt, stripLitCI_tag, hws, hr1, hhx, hr2, hst, hr4, hdg, hue, hse, hpe]

/-- Wherever the new-format pattern matches, the legacy pattern matches as
well (its requirements are weaker). -/
theorem matchOldAt_isSome_of_new {t : PyStr} (h : (matchNewAt t).isSome = true) :
    (matchOldAt t).isSome = true := by
  cases hstrip : stripLitCI tagLit t with
  | none =>
    unfold matchNewAt at h
    rw [hstrip] at h
    simp at h
  | some r =>
    unfold matchNewAt at h
    rw [hstrip] at h
    by_cases hws : (r.takeWhile pySpace).isEmpty = true
    · simp [hws] at h
    · by_cases hhx : ((r.dropWhile pySpace).takeWhile isHexCI).isEmpty = true
      · simp [hws, hhx] at h
      · have hrun : ((r.dropWhile pySpace).takeWhile isStackClassCI).isEmpty = false := by
          rcases hr1 : r.dropWhile pySpace with _ | ⟨c, t1⟩
          · rw [hr1] at hhx
            simp at hhx
          · rw [hr1] at hhx
            rw [List.takeWhile_cons] at hhx
            by_cases hc : isHexCI c = true
            · rw [List.takeWhile_cons]
              simp [isHexCI_isStackClassCI hc]
            · simp [hc] at hhx
        unfold matchOldAt
        rw [hstrip]
        simp [hws, hrun]

/-- When the new-format search fails, no suffix admits a match. -/
theorem searchNew_none_suffix : ∀ {msg : PyStr}, searchNew msg = none →
    ∀ t, t <:+ msg → matchNewAt t = none := by
  intro msg
  induction msg with
  | nil =>
    intro _ t ht
    rw [List.suffix_nil.mp ht]
    rfl
  | cons c m' ih =>
    intro h t ht
    have hm : matchNewAt (c :: m') = none ∧ searchNew m' = none := by
      cases hmc : matchNewAt (c :: m') with
      | some caps => simp [searchNew, hmc] at h
      | none =>
        simp only [searchNew, hmc] at h
        exact ⟨rfl, h⟩
    rcases List.suffix_cons_iff.mp ht with heq | hsuf
    · rw [heq]
      exact hm.1
    · exact ih hm.2 t hsuf

/-- When the legacy search fails, no suffix admits a match. -/
theorem searchOld_none_suffix : ∀ {msg : PyStr}, searchOld msg = none →
    ∀ t, t <:+ msg → matchOldAt t = none := by
  intro msg
  induction msg with
  | nil =>
    intro _ t ht
    rw [List.suffix_nil.mp ht]
    rfl
  | cons c m' ih =>
    intro h t ht
    have hm : matchOldAt (c :: m') = none ∧ searchOld m' = none := by
      cases hmc : matchOldAt (c :: m') with
      | some run => simp [searchOld, hmc] at h
      | none =>
        simp only [searchOld, hmc] at h
        exact ⟨rfl, h⟩
    rcases List.suffix_cons_iff.mp ht with heq | hsuf
    · rw [heq]
      exact hm.1
    · exact ih hm.2 t hsuf

/-- A suffix match makes the search succeed. -/
theorem searchNew_isSome_suffix : ∀ {msg t : PyStr} {caps : NewCaps},
    matchNewAt t = some caps → t <:+ msg → (searchNew msg).isSome = true := by
  intro msg
  induction msg with
  | nil =>
    intro t caps hm hsuf
    rw [List.suffix_nil.mp hsuf] at hm
    rw [show matchNewAt ([] : PyStr) = none from rfl] at hm
    cases hm
  | cons c m' ih =>
    intro t caps hm hsuf
    rcases List.suffix_cons_iff.mp hsuf with heq | hsuf2
    · rw [heq] at hm
      simp [searchNew, hm]
    · have hrest := ih hm hsuf2
      cases hx : matchNewAt (c :: m') <;> simp [searchNew, hx, hrest]

/-- Scanning a block none of whose non-empty suffixes can start a match
skips it. -/
theorem searchNew_skip : ∀ (msg E : PyStr),
    (∀ t, t <:+ msg → t ≠ [] → matchNewAt (t ++ E) = none) →
    searchNew (msg ++ E) = searchNew E := by
  intro msg
  induction msg with
  | nil => intro E _; rfl
  | cons c m' ih =>
    intro E h
    have h1 : matchNewAt ((c :: m') ++ E) = none :=
      h (c :: m') (List.suffix_refl _) (by simp)
    rw [List.cons_append] at h1 ⊢
    simp only [searchNew, h1]
    exact ih E (fun t ht htne => h t (ht.trans (List.suffix_cons c m')) htne)

/-- At a position inside a message where the legacy pattern fails, the
new-format pattern also fails in the extended string whose appendix is
newline padding followed by the injected line (which begins `Ch`): a match
would either complete the old pattern inside the message, or run into the
appendix where the capital C cannot continue a hex run past the following
h, or straddle the label literal, which no character of the appendix can
continue. -/
theorem matchNewAt_append_none (t pad rest : PyStr)
    (ht : t ≠ []) (hold : matchOldAt t = none)
    (hpad : pad.all (fun c => c = '\n') = true) :
    matchNewAt (t ++ (pad ++ ('C' :: 'h' :: rest))) = none := by
  cases hstrip : stripLitCI tagLit (t ++ (pad ++ ('C' :: 'h' :: rest))) with
  | none => simp [matchNewAt, hstrip]
  | some r =>
    rcases stripLitCI_append tagLit t _ r hstrip with ⟨r0, hstrip0, hr⟩ | ⟨hlen, hstrip2⟩
    · subst hr
      rcases hy : r0.dropWhile pySpace with _ | ⟨y0, ytail⟩
      · have hall : r0.all pySpace = true := all_of_dropWhile_nil hy
        have hws : (r0 ++ (pad ++ ('C' :: 'h' :: rest))).takeWhile pySpace =
            r0 ++ pad := by
          rw [takeWhile_append_all _ _ hall, takeWhile_append_all _ _ (pad_all_space hpad),
            takeWhile_cons_ff _ (by decide : pySpace 'C' = false), List.append_nil]
        have hdw : (r0 ++ (pad ++ ('C' :: 'h' :: rest))).dropWhile pySpace =
            'C' :: 'h' :: rest := by
          rw [dropWhile_append_all _ _ hall, dropWhile_append_all _ _ (pad_all_space hpad)]
          exact dropWhile_cons_ff _ (by decide : pySpace 'C' = false)
        by_cases hwse : (r0 ++ pad).isEmpty = true
        · simp [matchNewAt, hstrip, hws, hwse]
        · have hhx : List.takeWhile isHexCI ('C' :: 'h' :: rest) = ['C'] := by
            rw [List.takeWhile_cons]
            simp [(by decide : isHexCI 'C' = true),
              takeWhile_cons_ff rest (by decide : isHexCI 'h' = false)]
          have hd2 : List.dropWhile isHexCI ('C' :: 'h' :: rest) = 'h' :: rest := by
            rw [List.dropWhile_cons]
            simp [(by decide : isHexCI 'C' = true),
              dropWhile_cons_ff rest (by decide : isHexCI 'h' = false)]
          simp [matchNewAt, hstrip, hws, hdw, hwse, hhx, hd2]
      · have hy0 : pySpace y0 = false := dropWhile_head_ff hy
        have hsplit0 : r0 = r0.takeWhile pySpace ++ (y0 :: ytail) := by
          conv_lhs => rw [← List.takeWhile_append_dropWhile (p := pySpace) (l := r0)]
          rw [hy]
        have htw : (r0.takeWhile pySpace).all pySpace = true := all_takeWhile r0
        have hws : (r0 ++ (pad ++ ('C' :: 'h' :: rest))).takeWhile pySpace =
            r0.takeWhile pySpace := by
          conv_lhs => rw [hsplit0]
          rw [List.append_assoc, takeWhile_append_all _ _ htw, List.cons_append,
            takeWhile_cons_ff _ hy0, List.append_nil]
        have hdw : (r0 ++ (pad ++ ('C' :: 'h' :: rest))).dropWhile pySpace =
            y0 :: (ytail ++ (pad ++ ('C' :: 'h' :: rest))) := by
          conv_lhs => rw [hsplit0]
          rw [List.append_assoc, dropWhile_append_all _ _ htw, List.cons_append,
            dropWhile_cons_ff _ hy0]
        by_cases hwse : (r0.takeWhile pySpace).isEmpty = true
        · simp [matchNewAt, hstrip, hws, hwse]
        · by_cases hy0hex : isHexCI y0 = true
          · exfalso
            have hsome : (matchOldAt t).isSome = true := by
              unfold matchOldAt
              rw [hstrip0]
              have hrun : ((r0.dropWhile pySpace).takeWhile isStackClassCI).isEmpty =
                  false := by
                rw [hy, List.takeWhile_cons]
                simp [isHexCI_isStackClassCI hy0hex]
              simp [hwse, hrun]
            rw [hold] at hsome
            cases hsome
          · have hy0hex2 : isHexCI y0 = false := by
              cases hh : isHexCI y0
              · rfl
              · exact absurd hh hy0hex
            have hhx : ((r0 ++ (pad ++ ('C' :: 'h' :: rest))).dropWhile
                pySpace).takeWhile isHexCI = [] := by
              rw [hdw]
              exact takeWhile_cons_ff _ hy0hex2
            simp [matchNewAt, hstrip, hws, hwse, hhx]
    · have h1 : 1 ≤ t.length := by
        rcases t with _ | ⟨c, cs⟩
        · exact absurd rfl ht
        · simp
      have hlen10 : tagLit.length = 10 := by decide
      have h2 : t.length < 10 := by rw [hlen10] at hlen; exact hlen
      rcases hpadc : pad with _ | ⟨pc, pt⟩
      · rw [hpadc, List.nil_append] at hstrip2
        rw [(tagLit_no_straddle t.length h1 h2 ('h' :: rest)).1] at hstrip2
        cases hstrip2
      · have hpc : pc = '\n' := by
          rw [hpadc, List.all_cons, Bool.and_eq_true] at hpad
          exact of_decide_eq_true hpad.1
        rw [hpadc, hpc, List.cons_append] at hstrip2
        rw [(tagLit_no_straddle t.length h1 h2 (pt ++ ('C' :: 'h' :: rest))).2] at hstrip2
        cases hstrip2

/-- Appending the injected line after newline padding to a message with no
legacy match makes the new-format search find exactly the injected
identifier. -/
theorem searchNew_result (msg pad u s p : PyStr)
    (hold : searchOld msg = none)
    (hpad : pad.all (fun c => c = '\n') = true)
    (hu : u ≠ []) (hua : u.all isHexCI = true)
    (hs : s ≠ []) (hsa : s.all isStackClassCI = true)
    (hp : p ≠ []) (hpa : p.all isDigitB = true) :
    searchNew (msg ++ (pad ++ (lit "Change-Id: " ++ mkChangeId u s p))) =
      some (u, s, p) := by
  have htag : lit "Change-Id: " ++ mkChangeId u s p =
      'C' :: 'h' :: (lit "ange-Id: " ++ mkChangeId u s p) := rfl
  have hskip1 : searchNew (msg ++ (pad ++ (lit "Change-Id: " ++ mkChangeId u s p))) =
      searchNew (pad ++ (lit "Change-Id: " ++ mkChangeId u s p)) := by
    apply searchNew_skip
    intro t ht htne
    rw [htag]
    exact matchNewAt_append_none t pad _ htne (searchOld_none_suffix hold t ht) hpad
  have hskip2 : searchNew (pad ++ (lit "Change-Id: " ++ mkChangeId u s p)) =
      searchNew (lit "Change-Id: " ++ mkChangeId u s p) := by
    apply searchNew_skip
    intro t ht htne
    have hall : t.all (fun c => c = '\n') = true := by
      rw [List.all_eq_true] at hpad ⊢
      intro c hc
      exact hpad c (ht.subset hc)
    rcases t with _ | ⟨c, t2⟩
    · exact absurd rfl htne
    · have hc : c = '\n' := by
        rw [List.all_cons, Bool.and_eq_true] at hall
        exact of_decide_eq_true hall.1
      rw [hc, List.cons_append]
      exact matchNewAt_newline _
  have hmatch : matchNewAt (lit "Change-Id: " ++ mkChangeId u s p) = some (u, s, p) := by
    have h0 := matchNewAt_tag u s p [] hu hua hs hsa hp hpa (Or.inl rfl)
    rw [List.append_nil] at h0
    simpa [mkChangeId] using h0
  rw [hskip1, hskip2, htag]
  rw [htag] at hmatch
  simp [searchNew, hmatch]

/-- Splitting distributes over a separator occurrence: pieces never span a
separator. -/
theorem pySplitChar_sep_append : ∀ (a b : PyStr) (sep : Char),
    pySplitChar (a ++ sep :: b) sep = pySplitChar a sep ++ pySplitChar b sep := by
  intro a
  induction a with
  | nil => intro b sep; simp [pySplitChar]
  | cons c a2 ih =>
    intro b sep
    by_cases hc : c = sep
    · simp only [List.cons_append, pySplitChar, if_pos hc, List.append_eq, ih b sep]
    · simp only [List.cons_append, pySplitChar, if_neg hc, List.append_eq, ih b sep]
      rcases ha2 : pySplitChar a2 sep with _ | ⟨h2, ps⟩
      · exact absurd ha2 (pySplitChar_ne_nil a2 sep)
      · rfl

/-- The first piece of a split is an initial block of the string, ending at
the string end or at a separator. -/
theorem pySplitChar_head_decomp : ∀ (m : PyStr) (sep : Char) (h : PyStr)
    (ps : List PyStr), pySplitChar m sep = h :: ps →
    ∃ b, m = h ++ b ∧ (b = [] ∨ ∃ b2, b = sep :: b2) := by
  intro m
  induction m with
  | nil =>
    intro sep h ps hsp
    simp only [pySplitChar] at hsp
    injection hsp with h1 _
    exact ⟨[], by rw [← h1]; rfl, Or.inl rfl⟩
  | cons c m2 ih =>
    intro sep h ps hsp
    by_cases hc : c = sep
    · simp only [pySplitChar, if_pos hc] at hsp
      injection hsp with h1 _
      refine ⟨sep :: m2, ?_, Or.inr ⟨m2, rfl⟩⟩
      rw [← h1, List.nil_append, hc]
    · simp only [pySplitChar, if_neg hc] at hsp
      rcases hm2 : pySplitChar m2 sep with _ | ⟨h2, ps2⟩
      · exact absurd hm2 (pySplitChar_ne_nil m2 sep)
      · rw [hm2] at hsp
        injection hsp with h1 _
        rcases ih sep h2 ps2 hm2 with ⟨b, hb1, hb2⟩
        exact ⟨b, by rw [← h1, List.cons_append, hb1], hb2⟩

/-- Every non-empty line of a string occurs in it as a block bounded on the
right by the string end or a separator. -/
theorem split_mem_suffix : ∀ (msg : PyStr) (sep : Char) (L : PyStr),
    L ∈ pySplitChar msg sep → L ≠ [] →
    ∃ b, (L ++ b) <:+ msg ∧ (b = [] ∨ ∃ b2, b = sep :: b2) := by
  intro msg
  induction msg with
  | nil =>
    intro sep L hmem hne
    simp only [pySplitChar, List.mem_singleton] at hmem
    exact absurd hmem hne
  | cons c m2 ih =>
    intro sep L hmem hne
    by_cases hc : c = sep
    · simp only [pySplitChar, if_pos hc, List.mem_cons] at hmem
      rcases hmem with rfl | hmem2
      · exact absurd rfl hne
      · rcases ih sep L hmem2 hne with ⟨b, hb1, hb2⟩
        exact ⟨b, hb1.trans (List.suffix_cons c m2), hb2⟩
    · simp only [pySplitChar, if_neg hc] at hmem
      rcases hm2 : pySplitChar m2 sep with _ | ⟨h2, ps2⟩
      · exact absurd hm2 (pySplitChar_ne_nil m2 sep)
      · rw [hm2] at hmem
        rcases List.mem_cons.mp hmem with rfl | hmem2

        · rcases pySplitChar_head_decomp m2 sep h2 ps2 hm2 with ⟨b, hb1, hb2⟩
          refine ⟨b, ?_, hb2⟩
          rw [List.cons_append, hb1]
        · rcases ih sep L (by rw [hm2]; exact List.mem_cons_of_mem h2 hmem2) hne with
            ⟨b, hb1, hb2⟩
          exact ⟨b, hb1.trans (List.suffix_cons c m2), hb2⟩

/-- Unpacking of a failed extraction: both searches failed (on a non-empty
message) or the message was empty. -/
theorem extract_none_parts (m : PyStr) (h : extract_change_id (some m) = none) :
    searchNew m = none ∧ searchOld m = none := by
  rcases m with _ | ⟨c, t⟩
  · exact ⟨rfl, rfl⟩
  · unfold extract_change_id at h
    simp only [List.isEmpty_cons, Bool.false_eq_true, if_false] at h
    cases hn : searchNew (c :: t) with
    | some caps => rw [hn] at h; cases h
    | none =>
      rw [hn] at h
      exact ⟨rfl, h⟩

/-- Membership transfer: the delimiter-free injected line contains no
newline. -/
theorem tagline_no_newline (u s p : PyStr) (hua : u.all isHexCI = true)
    (hsa : s.all isStackClassCI = true) (hpa : p.all isDigitB = true) :
    pyContainsChar (lit "Change-Id: " ++ mkChangeId u s p) '\n' = false := by
  rw [pyContainsChar_false_iff]
  intro hmem
  rcases List.mem_append.mp hmem with htag | hcid
  · exact absurd htag (by decide)
  · unfold mkChangeId at hcid
    rcases List.mem_append.mp hcid with hmu | hrest
    · exact absurd rfl (isHexCI_ne_newline (List.all_eq_true.mp hua _ hmu)).symm
    · rcases List.mem_cons.mp hrest with hat | hrest2
      · cases hat
      · rcases List.mem_append.mp hrest2 with hms | hrest3
        · exact absurd rfl (isStackClassCI_ne_newline
            (List.all_eq_true.mp hsa _ hms)).symm
        · rcases List.mem_cons.mp hrest3 with hat2 | hmp
          · cases hat2
          · exact absurd rfl (isDigitB_ne_newline
              (List.all_eq_true.mp hpa _ hmp)).symm

/-- The injected line is never an existing line of a message on which both
searches fail. -/
theorem tagline_not_line (msg u s p : PyStr) (hnew : searchNew msg = none)
    (hu : u ≠ []) (hua : u.all isHexCI = true)
    (hs : s ≠ []) (hsa : s.all isStackClassCI = true)
    (hp : p ≠ []) (hpa : p.all isDigitB = true) :
    (lit "Change-Id: " ++ mkChangeId u s p) ∉ pySplitChar msg '\n' := by
  intro hmem
  have hne : (lit "Change-Id: " ++ mkChangeId u s p) ≠ [] := by
    rw [show lit "Change-Id: " ++ mkChangeId u s p =
      'C' :: 'h' :: (lit "ange-Id: " ++ mkChangeId u s p) from rfl]
    simp
  rcases split_mem_suffix msg '\n' _ hmem hne with ⟨b, hsuf, hb⟩
  have hshape : (lit "Change-Id: " ++ mkChangeId u s p) ++ b =
      lit "Change-Id: " ++ (u ++ '@' :: (s ++ '@' :: (p ++ b))) := by
    simp [mkChangeId, List.append_assoc, List.cons_append]
  have hb2 : b = [] ∨ ∃ b2, b = '\n' :: b2 := hb
  have hmatch := matchNewAt_tag u s p b hu hua hs hsa hp hpa hb2
  rw [← hshape] at hmatch
  have := searchNew_isSome_suffix hmatch hsuf
  rw [hnew] at this
  cases this

/-- A head of the pattern can be dropped when testing the start. -/
theorem pyStartsWith_shorten (l : PyStr) (a : Char) (rest : PyStr)
    (h : pyStartsWith l (a :: rest) = true) : pyStartsWith l [a] = true := by
  rcases l with _ | ⟨c, t⟩
  · simp [pyStartsWith] at h
  · simp only [pyStartsWith, Bool.and_eq_true] at h ⊢
    exact ⟨h.1, by simp [pyStartsWith]⟩

/-- Appending one newline to a string makes it end in a blank line exactly
when the string already ended in a newline. -/
theorem pyEndsWith_append_one (x : PyStr) :
    pyEndsWith (x ++ ['\n']) (lit "\n\n") = pyEndsWith x (lit "\n") := by
  rw [show lit "\n\n" = ['\n', '\n'] from rfl, show lit "\n" = ['\n'] from rfl]
  simp [pyEndsWith, pyStartsWith, List.reverse_append]

/-- A string with two appended newlines ends in a blank line. -/
theorem pyEndsWith_two (x : PyStr) :
    pyEndsWith (x ++ ['\n', '\n']) (lit "\n\n") = true := by
  rw [show lit "\n\n" = ['\n', '\n'] from rfl]
  simp [pyEndsWith, pyStartsWith, List.reverse_append]

/-- Ending in a blank line implies ending in a newline. -/
theorem pyEndsWith_one_of_two (s : PyStr) (h : pyEndsWith s (lit "\n\n") = true) :
    pyEndsWith s (lit "\n") = true := by
  rw [show lit "\n\n" = ['\n', '\n'] from rfl] at h
  rw [show lit "\n" = ['\n'] from rfl]
  unfold pyEndsWith at h ⊢
  rw [show (['\n', '\n'] : PyStr).reverse = ['\n', '\n'] from rfl] at h
  rw [show (['\n'] : PyStr).reverse = ['\n'] from rfl]
  exact pyStartsWith_shorten s.reverse '\n' ['\n'] h

/-- A string ending in a newline decomposes as a body plus that newline. -/
theorem pyEndsWith_decomp (s : PyStr) (h : pyEndsWith s (lit "\n") = true) :
    ∃ s0, s = s0 ++ ['\n'] := by
  rw [show lit "\n" = ['\n'] from rfl] at h
  unfold pyEndsWith at h
  rw [show (['\n'] : PyStr).reverse = ['\n'] from rfl] at h
  rcases hr : s.reverse with _ | ⟨c, t⟩
  · rw [hr] at h
    exact absurd h (by simp [pyStartsWith])
  · rw [hr] at h
    simp only [pyStartsWith, Bool.and_eq_true, decide_eq_true_eq] at h
    refine ⟨t.reverse, ?_⟩
    rw [← List.reverse_reverse s, hr, List.reverse_cons, h.1]

/-- A line list made of two blocks free of the line followed by the line
itself counts the line exactly once. -/
theorem count_line_aux (A B : List PyStr) (t : PyStr) (hA : t ∉ A) (hB : t ∉ B) :
    (A ++ (B ++ [t])).count t = 1 := by
  rw [List.count_append, List.count_append, List.count_eq_zero.mpr hA,
    List.count_eq_zero.mpr hB]
  simp

/-- The identifier injected after a message produced by the searches of the
extractor: extraction on the extended message recovers exactly the injected
identifier. -/
theorem extract_of_append (msg pad u s p : PyStr)
    (hold : searchOld msg = none)
    (hpad : pad.all (fun c => c = '\n') = true)
    (hu : u ≠ []) (hua : u.all isHexCI = true)
    (hs : s ≠ []) (hsa : s.all isStackClassCI = true)
    (hp : p ≠ []) (hpa : p.all isDigitB = true) :
    extract_change_id
        (some (msg ++ (pad ++ (lit "Change-Id: " ++ mkChangeId u s p)))) =
      some (mkChangeId u s p) := by
  have hsearch := searchNew_result msg pad u s p hold hpad hu hua hs hsa hp hpa
  have hne : (msg ++ (pad ++ (lit "Change-Id: " ++ mkChangeId u s p))) ≠ [] := by
    rw [show lit "Change-Id: " ++ mkChangeId u s p =
      'C' :: ('h' :: (lit "ange-Id: " ++ mkChangeId u s p)) from rfl]
    simp [List.append_eq_nil]
  have hemp : (msg ++ (pad ++ (lit "Change-Id: " ++ mkChangeId u s p))).isEmpty
      = false := by
    rw [← Bool.not_eq_true, List.isEmpty_iff]
    exact hne
  simp only [extract_change_id, hemp, Bool.false_eq_true, if_false, hsearch]
  simp [capsToId, mkChangeId, List.cons_append]

/-- C8: Change-Id injection is idempotent and yields exactly one identifier
line — a message with an extractable Change-Id is returned unchanged; a
message without one gets the line Change-Id: id appended after a newline pad
separating it from the body by a blank line, the result contains exactly one
such line, and the injected identifier is extractable from the result. -/
theorem add_change_id_message_spec (msg u s p : PyStr)
    (hu : u ≠ []) (hua : u.all isHexCI = true)
    (hs : s ≠ []) (hsa : s.all isStackClassCI = true)
    (hp : p ≠ []) (hpa : p.all isDigitB = true) :
    ((extract_change_id (some msg)).isSome = true →
      add_change_id_to_message msg (mkChangeId u s p) = msg) ∧
    (extract_change_id (some msg) = none →
      ∃ pad, pad.all (fun c => c = '\n') = true ∧
        add_change_id_to_message msg (mkChangeId u s p) =
          msg ++ (pad ++ (lit "Change-Id: " ++ mkChangeId u s p)) ∧
        (msg ≠ [] → pyEndsWith (msg ++ pad) (lit "\n\n") = true) ∧
        (pySplitChar (add_change_id_to_message msg (mkChangeId u s p)) '\n').count
            (lit "Change-Id: " ++ mkChangeId u s p) = 1 ∧
        extract_change_id
            (some (add_change_id_to_message msg (mkChangeId u s p))) =
          some (mkChangeId u s p)) := by
  constructor
  · intro h
    simp [add_change_id_to_message, h]
  · intro hnone
    obtain ⟨hnew, hold2⟩ := extract_none_parts msg hnone
    have hnotsome : (extract_change_id (some msg)).isSome = false := by
      rw [hnone]
      rfl
    have htagnl := tagline_no_newline u s p hua hsa hpa
    have htagsplit : pySplitChar (lit "Change-Id: " ++ mkChangeId u s p) '\n' =
        [lit "Change-Id: " ++ mkChangeId u s p] :=
      pySplitChar_no_sep _ '\n' htagnl
    have htagne : lit "Change-Id: " ++ mkChangeId u s p ≠ [] := by
      rw [show lit "Change-Id: " ++ mkChangeId u s p =
        'C' :: ('h' :: (lit "ange-Id: " ++ mkChangeId u s p)) from rfl]
      exact List.cons_ne_nil _ _
    have hnotline := tagline_not_line msg u s p hnew hu hua hs hsa hp hpa
    by_cases hm0 : msg = []
    · subst hm0
      have hres : add_change_id_to_message [] (mkChangeId u s p) =
          [] ++ ([] ++ (lit "Change-Id: " ++ mkChangeId u s p)) := by
        simp [add_change_id_to_message, hnotsome]
      refine ⟨[], rfl, hres, fun h => absurd rfl h, ?_, ?_⟩
      · rw [hres]
        simp only [List.nil_append]
        rw [htagsplit]
        simp
      · rw [hres]
        exact extract_of_append [] [] u s p rfl rfl hu hua hs hsa hp hpa
    · have hmE : msg.isEmpty = false := by
        rw [← Bool.not_eq_true, List.isEmpty_iff]
        exact hm0
      by_cases hA : pyEndsWith msg (lit "\n") = true
      · by_cases hB : pyEndsWith msg (lit "\n\n") = true
        · obtain ⟨msg0, hmsg0⟩ := pyEndsWith_decomp msg (pyEndsWith_one_of_two msg hB)
          have hres : add_change_id_to_message msg (mkChangeId u s p) =
              msg ++ ([] ++ (lit "Change-Id: " ++ mkChangeId u s p)) := by
            simp [add_change_id_to_message, hnotsome, hmE, hA, hB, List.append_assoc]
          refine ⟨[], rfl, hres, fun _ => by rw [List.append_nil]; exact hB, ?_, ?_⟩
          · rw [hres, List.nil_append, hmsg0, List.append_assoc]
            rw [show (['\n'] : PyStr) ++ (lit "Change-Id: " ++ mkChangeId u s p) =
              '\n' :: (lit "Change-Id: " ++ mkChangeId u s p) from rfl]
            rw [pySplitChar_sep_append, htagsplit]
            refine count_line_aux _ [] _ ?_ (by simp)
            intro hmem
            apply hnotline
            rw [hmsg0, pySplitChar_sep_append]
            exact List.mem_append_left _ hmem
          · rw [hres]
            exact extract_of_append msg [] u s p hold2 rfl hu hua hs hsa hp hpa
        · obtain ⟨msg0, hmsg0⟩ := pyEndsWith_decomp msg hA
          have hBf : pyEndsWith msg (lit "\n\n") = false := by
            rw [← Bool.not_eq_true]
            exact hB
          have hA1 : pyEndsWith msg ['\n'] = true := hA
          have hres : add_change_id_to_message msg (mkChangeId u s p) =
              msg ++ (['\n'] ++ (lit "Change-Id: " ++ mkChangeId u s p)) := by
            simp [add_change_id_to_message, hnotsome, hmE, hm0, hA1, hBf,
              show lit "\n" = ['\n'] from rfl, List.append_assoc,
              List.cons_append, List.singleton_append]
          refine ⟨['\n'], by decide, hres, ?_, ?_, ?_⟩
          · intro _
            rw [hmsg0, List.append_assoc]
            exact pyEndsWith_two msg0
          · rw [hres]
            rw [show (['\n'] : PyStr) ++ (lit "Change-Id: " ++ mkChangeId u s p) =
              '\n' :: (lit "Change-Id: " ++ mkChangeId u s p) from rfl]
            rw [pySplitChar_sep_append, htagsplit]
            exact count_line_aux _ [] _ hnotline (by simp)
          · rw [hres]
            exact extract_of_append msg ['\n'] u s p hold2 (by decide)
              hu hua hs hsa hp hpa
      · have hAf : pyEndsWith msg (lit "\n") = false := by
          rw [← Bool.not_eq_true]
          exact hA
        have hBp : pyEndsWith (msg ++ ['\n']) (lit "\n\n") = false := by
          rw [pyEndsWith_append_one, hAf]
        have hm1E : (msg ++ ['\n']).isEmpty = false := by
          rw [← Bool.not_eq_true, List.isEmpty_iff]
          simp
        have hA2 : pyEndsWith msg ['\n'] = false := hAf
        have hres : add_change_id_to_message msg (mkChangeId u s p) =
            msg ++ (['\n', '\n'] ++ (lit "Change-Id: " ++ mkChangeId u s p)) := by
          simp [add_change_id_to_message, hnotsome, hmE, hm0, hA2, hBp, hm1E,
            show lit "\n" = ['\n'] from rfl, List.append_assoc,
            List.cons_append, List.singleton_append, List.append_eq_nil]
        refine ⟨['\n', '\n'], by decide, hres, fun _ => pyEndsWith_two msg, ?_, ?_⟩
        · rw [hres]
          rw [show (['\n', '\n'] : PyStr) ++ (lit "Change-Id: " ++ mkChangeId u s p) =
            '\n' :: ('\n' :: (lit "Change-Id: " ++ mkChangeId u s p)) from rfl]
          rw [pySplitChar_sep_append]
          rw [show pySplitChar ('\n' :: (lit "Change-Id: " ++ mkChangeId u s p)) '\n' =
            [] :: pySplitChar (lit "Change-Id: " ++ mkChangeId u s p) '\n' from by
              simp [pySplitChar]]
          rw [htagsplit]
          refine count_line_aux _ [[]] _ hnotline ?_
          intro hmem
          rw [List.mem_singleton] at hmem
          exact htagne hmem
        · rw [hres]
          exact extract_of_append msg ['\n', '\n'] u s p hold2 (by decide)
            hu hua hs hsa hp hpa

/-- Witness for C8 at a concrete message and identifier. -/
theorem add_change_id_message_spec_witness :
    extract_change_id (some (add_change_id_to_message (lit "hello")
        (mkChangeId (lit "a1b2c3") (lit "feat") (lit "1")))) =
      some (mkChangeId (lit "a1b2c3") (lit "feat") (lit "1")) := by
  have h := add_change_id_message_spec (lit "hello") (lit "a1b2c3") (lit "feat")
    (lit "1") (by decide) (by decide) (by decide) (by decide) (by decide) (by decide)
  obtain ⟨pad, _, _, _, _, hex⟩ := h.2 (by decide)
  exact hex

end GitStack
